import Mathlib

/-!
Verification of the MORISWITCH V2 firmware core (src/MORISWITCH_V2.ino).

Shallow embedding conventions:
* machine bytes (`uint8_t`, `char`) are `Nat` values; where the C code casts
  to a byte we take `% 256`;
* the EEPROM is a function `Nat → Nat` from cell address to stored byte;
* C strings are `List Nat` of byte values; the terminating 0 byte is implicit
  (an embedded 0 byte truncates the effective string, see `cstr`);
* `millis()` timestamps are `Nat`.  The firmware's `unsigned long` timestamp
  differences `now - last` coincide with truncated `Nat` subtraction whenever
  `last ≤ now`, which holds along every monotone-time run since every stored
  timestamp is a previous value of `now`;
* the two external sinks (LCD, MIDI) are modelled as emitted events; GPIO
  sampling is an input `Fin 6 → Bool` per poll.
-/

set_option maxRecDepth 100000

namespace Moriswitch

/-- One configured action slot, mirroring `struct Slot`: four label bytes
(`label[0..3]`; the trailing terminator byte of `label[5]` is implicit) and
the five numeric fields. -/
@[ext]
structure Slot where
  label0 : Nat
  label1 : Nat
  label2 : Nat
  label3 : Nat
  type : Nat
  ch : Nat
  num : Nat
  vPress : Nat
  vRelease : Nat
deriving Repr, DecidableEq

/-- `ACT_NONE` of `enum ActionType`. -/
def ACT_NONE : Nat := 0
/-- `ACT_CC` (press + release). -/
def ACT_CC : Nat := 1
/-- `ACT_PC` (press only). -/
def ACT_PC : Nat := 2
/-- `ACT_BANK_UP` (press only). -/
def ACT_BANK_UP : Nat := 3
/-- `ACT_BANK_DOWN` (press only). -/
def ACT_BANK_DOWN : Nat := 4
/-- `ACT_CC_TOGGLE` (press only, 0 ↔ vPress). -/
def ACT_CC_TOGGLE : Nat := 5
/-- `ACT_CC_ONE_SHOT` (press only, no release effect). -/
def ACT_CC_ONE_SHOT : Nat := 6

/-- The RAM configuration grid `Slot cfg[NUM_BANKS][NUM_SW]`. -/
abbrev Cfg := Fin 4 → Fin 6 → Slot

/-- The runtime toggle grid `bool togState[NUM_BANKS][NUM_SW]`. -/
abbrev Tog := Fin 4 → Fin 6 → Bool

/-- `setDefaultConfig()`: every slot inert with label "----", except
switch 5 = BankDown "DWN " and switch 6 = BankUp "UP  ". -/
def setDefaultConfig : Cfg := fun _ s =>
  if s.val = 4 then ⟨68, 87, 78, 32, ACT_BANK_DOWN, 1, 0, 127, 0⟩
  else if s.val = 5 then ⟨85, 80, 32, 32, ACT_BANK_UP, 1, 0, 127, 0⟩
  else ⟨45, 45, 45, 45, ACT_NONE, 1, 0, 127, 0⟩

/-- `setDefaultConfig()` also clears every toggle bit. -/
def defaultTog : Tog := fun _ _ => false

-- -------------------- EEPROM layout --------------------

/-- `EEPROM_MAGIC = 0x4D434646` (`'MCFF'`). -/
def EEPROM_MAGIC : Nat := 0x4D434646

/-- `slotAddr(bankIdx, swIdx)`: 9-byte records after the 4-byte magic. -/
def slotAddr (bankIdx swIdx : Nat) : Nat := 4 + (bankIdx * 6 + swIdx) * 9

/-- The byte at offset `off` of a stored slot record, exactly the bytes
written by `eepromWriteSlot` (label bytes then type, ch, num, vPress,
vRelease, each cast to `uint8_t`). -/
def slotByte (s : Slot) (off : Nat) : Nat :=
  if off = 0 then s.label0 % 256
  else if off = 1 then s.label1 % 256
  else if off = 2 then s.label2 % 256
  else if off = 3 then s.label3 % 256
  else if off = 4 then s.type % 256
  else if off = 5 then s.ch % 256
  else if off = 6 then s.num % 256
  else if off = 7 then s.vPress % 256
  else s.vRelease % 256

/-- `eepromWriteSlot(bankIdx, swIdx, s)`: the nine `EEPROM.update` calls,
described extensionally (cells `slotAddr b s .. slotAddr b s + 8` receive
the record bytes, every other cell is unchanged). -/
def eepromWriteSlot (b s : Nat) (sl : Slot) (img : Nat → Nat) : Nat → Nat := fun a =>
  if slotAddr b s ≤ a ∧ a < slotAddr b s + 9 then slotByte sl (a - slotAddr b s) else img a

/-- `EEPROM.put(EEPROM_MAGIC_ADDR, EEPROM_MAGIC)`: the four magic bytes in
AVR little-endian order at cells 0..3. -/
def writeMagic (img : Nat → Nat) : Nat → Nat := fun a =>
  if a = 0 then 0x46 else if a = 1 then 0x46
  else if a = 2 then 0x43 else if a = 3 then 0x4D else img a

/-- The bank-major, switch-minor slot order of the nested save/load loops. -/
def allSlots : List (Fin 4 × Fin 6) :=
  (List.finRange 4).flatMap (fun b => (List.finRange 6).map (fun s => (b, s)))

/-- `saveAllToEEPROM()`: write the magic, then every slot record in
bank-major, switch-minor order.  Returns the updated EEPROM image. -/
def saveAllToEEPROM (cfg : Cfg) (img : Nat → Nat) : Nat → Nat :=
  allSlots.foldl (fun im p => eepromWriteSlot p.1.val p.2.val (cfg p.1 p.2) im)
    (writeMagic img)

/-- `EEPROM.get(EEPROM_MAGIC_ADDR, m)` for a `uint32_t`: assemble cells 0..3
little-endian (AVR `memcpy` semantics). -/
def readMagic (img : Nat → Nat) : Nat :=
  img 0 % 256 + 256 * (img 1 % 256) + 65536 * (img 2 % 256) + 16777216 * (img 3 % 256)

/-- The label sanitization of `eepromReadSlot`: an erased-cell byte (0xFF)
or a 0 byte becomes a space. -/
def sanLabelByte (c : Nat) : Nat := if c = 255 ∨ c = 0 then 32 else c

/-- `eepromReadSlot(bankIdx, swIdx, s)`: read the nine record bytes and
sanitize (`ch` forced to 1 when out of 1..16, `type` forced to `ACT_NONE`
when above `ACT_CC_ONE_SHOT`, bad label bytes to spaces).  `num`, `vPress`,
`vRelease` are stored verbatim. -/
def eepromReadSlot (img : Nat → Nat) (b s : Nat) : Slot :=
  let a := slotAddr b s
  { label0 := sanLabelByte (img (a + 0) % 256)
    label1 := sanLabelByte (img (a + 1) % 256)
    label2 := sanLabelByte (img (a + 2) % 256)
    label3 := sanLabelByte (img (a + 3) % 256)
    type := if ACT_CC_ONE_SHOT < img (a + 4) % 256 then ACT_NONE else img (a + 4) % 256
    ch := if img (a + 5) % 256 < 1 ∨ 16 < img (a + 5) % 256 then 1 else img (a + 5) % 256
    num := img (a + 6) % 256
    vPress := img (a + 7) % 256
    vRelease := img (a + 8) % 256 }

/-- `loadAllFromEEPROM()`: check the magic; on mismatch report failure and
leave the grid untouched, otherwise decode all 24 slots. -/
def loadAllFromEEPROM (img : Nat → Nat) (cfg : Cfg) : Bool × Cfg :=
  if readMagic img ≠ EEPROM_MAGIC then (false, cfg)
  else (true, fun b s => eepromReadSlot img b.val s.val)

-- -------------------- EEPROM read-after-write facts --------------------

theorem slotAddr_disjoint {b s b' s' off : Nat} (_hb : b < 4) (hs : s < 6)
    (_hb' : b' < 4) (hs' : s' < 6) (hoff : off < 9) (hne : ¬(b = b' ∧ s = s')) :
    ¬(slotAddr b' s' ≤ slotAddr b s + off ∧ slotAddr b s + off < slotAddr b' s' + 9) := by
  simp only [slotAddr]
  rcases not_and_or.mp hne with h | h <;> omega

theorem foldl_write_notMem (cfg : Cfg) (L : List (Fin 4 × Fin 6)) (im : Nat → Nat)
    (b : Fin 4) (s : Fin 6) (off : Nat) (hoff : off < 9) (h : (b, s) ∉ L) :
    L.foldl (fun im2 p => eepromWriteSlot p.1.val p.2.val (cfg p.1 p.2) im2) im
      (slotAddr b.val s.val + off) = im (slotAddr b.val s.val + off) := by
  induction L generalizing im with
  | nil => rfl
  | cons p rest ih =>
    simp only [List.foldl_cons]
    rw [ih _ (fun hmem => h (List.mem_cons_of_mem _ hmem))]
    have hne : ¬(b.val = p.1.val ∧ s.val = p.2.val) := by
      intro ⟨h1, h2⟩
      exact h (by
        have : (b, s) = p := Prod.ext (Fin.ext h1) (Fin.ext h2)
        simp [this])
    have := slotAddr_disjoint b.isLt s.isLt p.1.isLt p.2.isLt hoff hne
    simp only [eepromWriteSlot, if_neg this]

theorem foldl_write_mem (cfg : Cfg) (L : List (Fin 4 × Fin 6)) (im : Nat → Nat)
    (b : Fin 4) (s : Fin 6) (off : Nat) (hoff : off < 9) (h : (b, s) ∈ L) :
    L.foldl (fun im2 p => eepromWriteSlot p.1.val p.2.val (cfg p.1 p.2) im2) im
      (slotAddr b.val s.val + off) = slotByte (cfg b s) off := by
  induction L generalizing im with
  | nil => cases h
  | cons p rest ih =>
    simp only [List.foldl_cons]
    by_cases hmem : (b, s) ∈ rest
    · exact ih _ hmem
    · have hp : p = (b, s) := by
        rcases List.mem_cons.mp h with h1 | h1
        · exact h1.symm
        · exact absurd h1 hmem
      subst hp
      rw [foldl_write_notMem cfg rest _ b s off hoff hmem]
      have hin : slotAddr b.val s.val ≤ slotAddr b.val s.val + off ∧
          slotAddr b.val s.val + off < slotAddr b.val s.val + 9 := by omega
      simp only [eepromWriteSlot, if_pos hin, Nat.add_sub_cancel_left]

theorem mem_allSlots (b : Fin 4) (s : Fin 6) : (b, s) ∈ allSlots := by
  fin_cases b <;> fin_cases s <;> decide

/-- Reading a slot-record byte back from a saved image yields the record
byte of that slot. -/
theorem saveAll_slotByte (cfg : Cfg) (img : Nat → Nat) (b : Fin 4) (s : Fin 6)
    (off : Nat) (hoff : off < 9) :
    saveAllToEEPROM cfg img (slotAddr b.val s.val + off) = slotByte (cfg b s) off :=
  foldl_write_mem cfg allSlots _ b s off hoff (mem_allSlots b s)

theorem foldl_write_low (cfg : Cfg) (L : List (Fin 4 × Fin 6)) (im : Nat → Nat)
    (a : Nat) (ha : a < 4) :
    L.foldl (fun im2 p => eepromWriteSlot p.1.val p.2.val (cfg p.1 p.2) im2) im a
      = im a := by
  induction L generalizing im with
  | nil => rfl
  | cons p rest ih =>
    simp only [List.foldl_cons]
    rw [ih]
    have : ¬(slotAddr p.1.val p.2.val ≤ a ∧ a < slotAddr p.1.val p.2.val + 9) := by
      simp only [slotAddr]; omega
    simp only [eepromWriteSlot, if_neg this]

/-- A saved image always carries the magic marker. -/
theorem readMagic_saveAll (cfg : Cfg) (img : Nat → Nat) :
    readMagic (saveAllToEEPROM cfg img) = EEPROM_MAGIC := by
  have h0 := foldl_write_low cfg allSlots (writeMagic img) 0 (by omega)
  have h1 := foldl_write_low cfg allSlots (writeMagic img) 1 (by omega)
  have h2 := foldl_write_low cfg allSlots (writeMagic img) 2 (by omega)
  have h3 := foldl_write_low cfg allSlots (writeMagic img) 3 (by omega)
  simp only [readMagic, saveAllToEEPROM, h0, h1, h2, h3, writeMagic]
  norm_num [EEPROM_MAGIC]

/-- Field ranges under which a slot survives the save/load round trip
byte-for-byte: every live-`SET`-produced slot (with no 0xFF label byte)
satisfies this. -/
def slotOk (sl : Slot) : Prop :=
  1 ≤ sl.label0 ∧ sl.label0 ≤ 254 ∧ 1 ≤ sl.label1 ∧ sl.label1 ≤ 254 ∧
  1 ≤ sl.label2 ∧ sl.label2 ≤ 254 ∧ 1 ≤ sl.label3 ∧ sl.label3 ≤ 254 ∧
  sl.type ≤ 6 ∧ 1 ≤ sl.ch ∧ sl.ch ≤ 16 ∧
  sl.num ≤ 127 ∧ sl.vPress ≤ 127 ∧ sl.vRelease ≤ 127

instance (sl : Slot) : Decidable (slotOk sl) := by unfold slotOk; infer_instance

/-- Decoding a freshly saved slot record reproduces the slot, provided its
fields are in the `slotOk` ranges. -/
theorem eepromReadSlot_saveAll (cfg : Cfg) (img : Nat → Nat) (b : Fin 4) (s : Fin 6)
    (h : slotOk (cfg b s)) :
    eepromReadSlot (saveAllToEEPROM cfg img) b.val s.val = cfg b s := by
  obtain ⟨h0a, h0b, h1a, h1b, h2a, h2b, h3a, h3b, hty, hch1, hch2, hnum, hvp, hvr⟩ := h
  have e0 := saveAll_slotByte cfg img b s 0 (by omega)
  have e1 := saveAll_slotByte cfg img b s 1 (by omega)
  have e2 := saveAll_slotByte cfg img b s 2 (by omega)
  have e3 := saveAll_slotByte cfg img b s 3 (by omega)
  have e4 := saveAll_slotByte cfg img b s 4 (by omega)
  have e5 := saveAll_slotByte cfg img b s 5 (by omega)
  have e6 := saveAll_slotByte cfg img b s 6 (by omega)
  have e7 := saveAll_slotByte cfg img b s 7 (by omega)
  have e8 := saveAll_slotByte cfg img b s 8 (by omega)
  simp only [slotByte] at e0 e1 e2 e3 e4 e5 e6 e7 e8
  norm_num at e0 e1 e2 e3 e4 e5 e6 e7 e8
  simp only [eepromReadSlot, Nat.add_zero, e0, e1, e2, e3, e4, e5, e6, e7, e8]
  have m0 : (cfg b s).label0 % 256 % 256 = (cfg b s).label0 := by omega
  have m1 : (cfg b s).label1 % 256 % 256 = (cfg b s).label1 := by omega
  have m2 : (cfg b s).label2 % 256 % 256 = (cfg b s).label2 := by omega
  have m3 : (cfg b s).label3 % 256 % 256 = (cfg b s).label3 := by omega
  have mty : (cfg b s).type % 256 % 256 = (cfg b s).type := by omega
  have mch : (cfg b s).ch % 256 % 256 = (cfg b s).ch := by omega
  have mnum : (cfg b s).num % 256 % 256 = (cfg b s).num := by omega
  have mvp : (cfg b s).vPress % 256 % 256 = (cfg b s).vPress := by omega
  have mvr : (cfg b s).vRelease % 256 % 256 = (cfg b s).vRelease := by omega
  rw [m0, m1, m2, m3, mty, mch, mnum, mvp, mvr]
  simp only [sanLabelByte, ACT_CC_ONE_SHOT, ACT_NONE]
  rw [if_neg (by omega : ¬((cfg b s).label0 = 255 ∨ (cfg b s).label0 = 0)),
    if_neg (by omega : ¬((cfg b s).label1 = 255 ∨ (cfg b s).label1 = 0)),
    if_neg (by omega : ¬((cfg b s).label2 = 255 ∨ (cfg b s).label2 = 0)),
    if_neg (by omega : ¬(6 < (cfg b s).type)),
    if_neg (by omega : ¬((cfg b s).ch < 1 ∨ 16 < (cfg b s).ch)),
    if_neg (by omega : ¬((cfg b s).label3 = 255 ∨ (cfg b s).label3 = 0))]

-- -------------------- Claim C1 --------------------

/-- C1 (amended): for every persisted byte image whose magic marker
matches, `load()` succeeds and every decoded slot has a recognized type
(`≤ ACT_CC_ONE_SHOT`), a channel in [1,16], and label bytes in which the
erased-cell sentinel 0xFF and the null byte become a space; `number`,
`pressValue` and `releaseValue` are taken verbatim from the stored bytes
(range 0–255) and are NOT clamped to [0,127]. -/
theorem load_decodes_sanitized (img : Nat → Nat) (cfg : Cfg)
    (h : readMagic img = EEPROM_MAGIC) :
    (loadAllFromEEPROM img cfg).1 = true ∧
    ∀ (b : Fin 4) (s : Fin 6),
      ((loadAllFromEEPROM img cfg).2 b s).type ≤ ACT_CC_ONE_SHOT ∧
      1 ≤ ((loadAllFromEEPROM img cfg).2 b s).ch ∧
      ((loadAllFromEEPROM img cfg).2 b s).ch ≤ 16 ∧
      ((loadAllFromEEPROM img cfg).2 b s).label0
        = sanLabelByte (img (slotAddr b.val s.val + 0) % 256) ∧
      ((loadAllFromEEPROM img cfg).2 b s).label1
        = sanLabelByte (img (slotAddr b.val s.val + 1) % 256) ∧
      ((loadAllFromEEPROM img cfg).2 b s).label2
        = sanLabelByte (img (slotAddr b.val s.val + 2) % 256) ∧
      ((loadAllFromEEPROM img cfg).2 b s).label3
        = sanLabelByte (img (slotAddr b.val s.val + 3) % 256) ∧
      ((loadAllFromEEPROM img cfg).2 b s).num = img (slotAddr b.val s.val + 6) % 256 ∧
      ((loadAllFromEEPROM img cfg).2 b s).vPress = img (slotAddr b.val s.val + 7) % 256 ∧
      ((loadAllFromEEPROM img cfg).2 b s).vRelease = img (slotAddr b.val s.val + 8) % 256 := by
  simp only [loadAllFromEEPROM, h, ne_eq, not_true_eq_false, if_false]
  refine ⟨trivial, fun b s => ?_⟩
  simp only [eepromReadSlot]
  refine ⟨?_, ?_, ?_, trivial, trivial, trivial, trivial, trivial, trivial, trivial⟩
  · simp only [ACT_CC_ONE_SHOT, ACT_NONE]
    split_ifs with h1 <;> omega
  · split_ifs with h1 <;> omega
  · split_ifs with h1 <;> [omega; (push_neg at h1; omega)]

/-- An image holding the magic marker, erased (0xFF) data cells. -/
def imgBlank : Nat → Nat := fun a =>
  if a = 0 then 0x46 else if a = 1 then 0x46
  else if a = 2 then 0x43 else if a = 3 then 0x4D else 255

theorem load_decodes_sanitized_witness :
    readMagic imgBlank = EEPROM_MAGIC ∧
    ((loadAllFromEEPROM imgBlank setDefaultConfig).1 = true ∧
     ∀ (b : Fin 4) (s : Fin 6),
      ((loadAllFromEEPROM imgBlank setDefaultConfig).2 b s).type ≤ ACT_CC_ONE_SHOT ∧
      1 ≤ ((loadAllFromEEPROM imgBlank setDefaultConfig).2 b s).ch ∧
      ((loadAllFromEEPROM imgBlank setDefaultConfig).2 b s).ch ≤ 16 ∧
      ((loadAllFromEEPROM imgBlank setDefaultConfig).2 b s).label0
        = sanLabelByte (imgBlank (slotAddr b.val s.val + 0) % 256) ∧
      ((loadAllFromEEPROM imgBlank setDefaultConfig).2 b s).label1
        = sanLabelByte (imgBlank (slotAddr b.val s.val + 1) % 256) ∧
      ((loadAllFromEEPROM imgBlank setDefaultConfig).2 b s).label2
        = sanLabelByte (imgBlank (slotAddr b.val s.val + 2) % 256) ∧
      ((loadAllFromEEPROM imgBlank setDefaultConfig).2 b s).label3
        = sanLabelByte (imgBlank (slotAddr b.val s.val + 3) % 256) ∧
      ((loadAllFromEEPROM imgBlank setDefaultConfig).2 b s).num
        = imgBlank (slotAddr b.val s.val + 6) % 256 ∧
      ((loadAllFromEEPROM imgBlank setDefaultConfig).2 b s).vPress
        = imgBlank (slotAddr b.val s.val + 7) % 256 ∧
      ((loadAllFromEEPROM imgBlank setDefaultConfig).2 b s).vRelease
        = imgBlank (slotAddr b.val s.val + 8) % 256) :=
  ⟨by decide, load_decodes_sanitized imgBlank setDefaultConfig (by decide)⟩

/-- An image holding the magic marker whose slot(0,0) `num` byte is 200. -/
def imgBadNum : Nat → Nat := fun a =>
  if a = 0 then 0x46 else if a = 1 then 0x46
  else if a = 2 then 0x43 else if a = 3 then 0x4D
  else if a = 10 then 200 else 0

/-- C1 counterexample: with the magic marker in place and a stored `num`
byte of 200 for bank 1 switch 1, `load()` decodes `num = 200`, outside
[0,127] — the load path never clamps `num`, `vPress`, `vRelease`. -/
theorem load_num_not_clamped :
    readMagic imgBadNum = EEPROM_MAGIC ∧
    ((loadAllFromEEPROM imgBadNum setDefaultConfig).2 0 0).num = 200 ∧
    ¬((loadAllFromEEPROM imgBadNum setDefaultConfig).2 0 0).num ≤ 127 := by
  decide

-- -------------------- Serial protocol --------------------

/-- C-string view of a byte buffer: the bytes before the first 0 byte. -/
def cstr (l : List Nat) : List Nat := l.takeWhile (· ≠ 0)

/-- Split at the first comma, as `nextTok` does with `strchr(p, ',')` and
in-place null termination: the token bytes before the comma and the
remainder after it (`none` when no comma was found). -/
def splitComma : List Nat → List Nat × Option (List Nat)
  | [] => ([], none)
  | c :: cs =>
    if c = 44 then ([], some cs)
    else
      let r := splitComma cs
      (c :: r.1, r.2)

/-- The leading/trailing space trim of `nextTok`. -/
def trimTok (l : List Nat) : List Nat :=
  ((l.dropWhile (· = 32)).reverse.dropWhile (· = 32)).reverse

/-- `nextTok(p)`: on a live pointer, cut the next comma-separated token and
trim it; a null pointer yields no token. -/
def nextTok : Option (List Nat) → Option (List Nat) × Option (List Nat)
  | none => (none, none)
  | some l =>
    let r := splitComma l
    (some (trimTok r.1), r.2)

/-- The digit-accumulation loop of `atoi`. -/
def atoiDigits : List Nat → Nat → Nat
  | [], acc => acc
  | c :: cs, acc => if 48 ≤ c ∧ c ≤ 57 then atoiDigits cs (acc * 10 + (c - 48)) else acc

/-- `atoi`: skip leading whitespace, optional sign, then decimal digits
(exact integer semantics; the fields of interest never overflow the
platform `int`). -/
def atoi (l : List Nat) : Int :=
  let l1 := l.dropWhile (fun c => c = 32 ∨ (9 ≤ c ∧ c ≤ 13))
  match l1 with
  | 45 :: rest => -(atoiDigits rest 0 : Int)
  | 43 :: rest => (atoiDigits rest 0 : Int)
  | _ => (atoiDigits l1 0 : Int)

/-- One serial response line (`Serial.println`); `dumpLine` carries the
printed fields of one `SET,...` line emitted by `dumpConfig`. -/
inductive Resp where
  | okSet | errBadSetFormat | errBadIndex
  | okSaved | okLoaded | errNoEepromConfig
  | okDumpDone | errUnknownCmd | errLineTooLong
  | dumpLine (bank sw : Nat) (label : List Nat) (type ch num vPress vRelease : Nat)
deriving Repr, DecidableEq

/-- A MIDI side effect emitted through the MIDI sink. -/
inductive MidiOut where
  | cc (ch num val : Nat)
  | pc (ch num : Nat)
deriving Repr, DecidableEq

/-- The protocol-visible process state: the grid, the toggle bits, the
active bank (1..4) and the EEPROM image. -/
structure ProtoState where
  cfg : Cfg
  tog : Tog
  currentBank : Nat
  eeprom : Nat → Nat

/-- Write one slot of the grid. -/
def updCfg (cfg : Cfg) (b : Fin 4) (s : Fin 6) (sl : Slot) : Cfg :=
  fun b' s' => if b' = b ∧ s' = s then sl else cfg b' s'

/-- Write one toggle bit. -/
def updTog (tog : Tog) (b : Fin 4) (s : Fin 6) (v : Bool) : Tog :=
  fun b' s' => if b' = b ∧ s' = s then v else tog b' s'

/-- The label transformation of `applySetLine`: character `i` of the token
(space when past its end), with an underscore mapped to a space. -/
def setLabelChar (lab : List Nat) (i : Nat) : Nat :=
  let c := lab.getD i 32
  if c = 95 then 32 else c

/-- The slot stored by a successful `SET`: label characters through
`setLabelChar`, type forced to `ACT_NONE` when outside the known variants,
channel clamped to [1,16], values clamped to [0,127]. -/
def setSlot (tlab : List Nat) (ty ch num vp vr : Int) : Slot :=
  { label0 := setLabelChar tlab 0
    label1 := setLabelChar tlab 1
    label2 := setLabelChar tlab 2
    label3 := setLabelChar tlab 3
    type := if ty < 0 ∨ 6 < ty then ACT_NONE else ty.toNat
    ch := (if ch < 1 then 1 else if 16 < ch then 16 else ch).toNat
    num := (if num < 0 then 0 else if 127 < num then 127 else num).toNat
    vPress := (if vp < 0 then 0 else if 127 < vp then 127 else vp).toNat
    vRelease := (if vr < 0 then 0 else if 127 < vr then 127 else vr).toNat }

/-- `applySetLine(line)`: tokenize eight fields after `"SET,"`; on any
missing token report a format error, on an out-of-range bank/switch report
an index error, both without any state change; otherwise clamp and store
the slot and reset its toggle bit. -/
def applySetLine (line : List Nat) (st : ProtoState) : ProtoState × List Resp :=
  let t1 := nextTok (some (line.drop 4))
  let t2 := nextTok t1.2
  let t3 := nextTok t2.2
  let t4 := nextTok t3.2
  let t5 := nextTok t4.2
  let t6 := nextTok t5.2
  let t7 := nextTok t6.2
  let t8 := nextTok t7.2
  if t1.1 = none ∨ t2.1 = none ∨ t3.1 = none ∨ t4.1 = none ∨
      t5.1 = none ∨ t6.1 = none ∨ t7.1 = none ∨ t8.1 = none then
    (st, [Resp.errBadSetFormat])
  else
    let bank := atoi (t1.1.getD [])
    let sw := atoi (t2.1.getD [])
    if hidx : bank < 1 ∨ 4 < bank ∨ sw < 1 ∨ 6 < sw then (st, [Resp.errBadIndex])
    else
      let b : Fin 4 := ⟨(bank - 1).toNat, by omega⟩
      let s : Fin 6 := ⟨(sw - 1).toNat, by omega⟩
      let sl := setSlot (t3.1.getD []) (atoi (t4.1.getD [])) (atoi (t5.1.getD []))
        (atoi (t6.1.getD [])) (atoi (t7.1.getD [])) (atoi (t8.1.getD []))
      ({ st with cfg := updCfg st.cfg b s sl, tog := updTog st.tog b s false },
        [Resp.okSet])

/-- `Serial.print(s.label)` prints the label as a C string. -/
def printedLabel (sl : Slot) : List Nat :=
  cstr [sl.label0, sl.label1, sl.label2, sl.label3]

/-- `dumpConfig()`: one `SET,...` line per slot in bank-major, switch-minor
order, then the completion marker. -/
def dumpConfig (cfg : Cfg) : List Resp :=
  ((List.finRange 4).flatMap fun b => (List.finRange 6).map fun sw =>
    Resp.dumpLine (b.val + 1) (sw.val + 1) (printedLabel (cfg b sw)) (cfg b sw).type
      (cfg b sw).ch (cfg b sw).num (cfg b sw).vPress (cfg b sw).vRelease)
    ++ [Resp.okDumpDone]

/-- `processSerialLine(line)`: dispatch one received line (viewed as a C
string) to the SET/SAVE/LOAD/DUMP handlers. -/
def processSerialLine (line : List Nat) (st : ProtoState) : ProtoState × List Resp :=
  let l := cstr line
  if l = [] then (st, [])
  else if l.take 4 = [83, 69, 84, 44] then applySetLine l st
  else if l = [83, 65, 86, 69] then
    ({ st with eeprom := saveAllToEEPROM st.cfg st.eeprom }, [Resp.okSaved])
  else if l = [76, 79, 65, 68] then
    let r := loadAllFromEEPROM st.eeprom st.cfg
    if r.1 then ({ st with cfg := r.2 }, [Resp.okLoaded])
    else (st, [Resp.errNoEepromConfig])
  else if l = [68, 85, 77, 80] then (st, dumpConfig st.cfg)
  else (st, [Resp.errUnknownCmd])

/-- `doBankUp()`: advance the active bank circularly in 1..4. -/
def doBankUp (bank : Nat) : Nat := if 4 < bank + 1 then 1 else bank + 1

/-- `doBankDown()`: retreat the active bank circularly in 1..4. -/
def doBankDown (bank : Nat) : Nat := if bank ≤ 1 then 4 else bank - 1

/-- `handleSwitchEvent(swIdx, pressed)`: dispatch the active bank's slot by
action type.  `1 ≤ currentBank ≤ 4` holds at every call site; the bounds
guard only totalizes the C array access. -/
def handleSwitchEvent (st : ProtoState) (swIdx : Fin 6) (pressed : Bool) :
    ProtoState × List MidiOut :=
  if hb : st.currentBank - 1 < 4 then
    let b : Fin 4 := ⟨st.currentBank - 1, hb⟩
    let s := st.cfg b swIdx
    if s.type = ACT_BANK_UP then
      (if pressed then { st with currentBank := doBankUp st.currentBank } else st, [])
    else if s.type = ACT_BANK_DOWN then
      (if pressed then { st with currentBank := doBankDown st.currentBank } else st, [])
    else if s.type = ACT_PC then
      (st, if pressed then [MidiOut.pc s.ch s.num] else [])
    else if s.type = ACT_CC then
      (st, [MidiOut.cc s.ch s.num (if pressed then s.vPress else s.vRelease)])
    else if s.type = ACT_CC_TOGGLE then
      if pressed then
        let nt := !(st.tog b swIdx)
        ({ st with tog := updTog st.tog b swIdx nt },
          [MidiOut.cc s.ch s.num (if nt then s.vPress else 0)])
      else (st, [])
    else if s.type = ACT_CC_ONE_SHOT then
      (st, if pressed then [MidiOut.cc s.ch s.num s.vPress] else [])
    else (st, [])
  else (st, [])

-- -------------------- Serial receive (line framing) --------------------

/-- The receive-loop state: the bytes buffered in `lineBuf` so far
(`lineLen` is their number, at most 219) plus the protocol state. -/
structure RxState where
  buf : List Nat
  proto : ProtoState

/-- Strip one trailing carriage return before dispatching a line. -/
def stripCR (l : List Nat) : List Nat :=
  match l.getLast? with
  | some 13 => l.dropLast
  | _ => l

/-- One received character of the `loop()` serial-drain phase: a newline
dispatches the buffered line and always resets the buffer; any other
character appends while fewer than 219 bytes are buffered, and otherwise
clears the buffer and reports a line-too-long error. -/
def serialRxChar (st : RxState) (c : Nat) : RxState × List Resp :=
  if c % 256 = 10 then
    let r := processSerialLine (stripCR st.buf) st.proto
    ({ buf := [], proto := r.1 }, r.2)
  else
    if st.buf.length < 219 then ({ st with buf := st.buf ++ [c % 256] }, [])
    else ({ st with buf := [] }, [Resp.errLineTooLong])

/-- Drain a sequence of received characters. -/
def serialRx (st : RxState) : List Nat → RxState × List Resp
  | [] => (st, [])
  | c :: cs =>
    let r := serialRxChar st c
    let r2 := serialRx r.1 cs
    (r2.1, r.2 ++ r2.2)

-- -------------------- Claim C3 --------------------

/-- The `"LOAD"` command line. -/
def loadLine : List Nat := [76, 79, 65, 68]

/-- C3: when the stored 4-byte magic marker does not match, `load()`
reports failure with the grid untouched, and the `LOAD` command leaves the
whole state (in particular the 4×6 slot grid) exactly as it was and
responds with the no-stored-configuration error. -/
theorem load_bad_magic_no_change (st : ProtoState)
    (h : readMagic st.eeprom ≠ EEPROM_MAGIC) :
    loadAllFromEEPROM st.eeprom st.cfg = (false, st.cfg) ∧
    processSerialLine loadLine st = (st, [Resp.errNoEepromConfig]) := by
  have hload : loadAllFromEEPROM st.eeprom st.cfg = (false, st.cfg) := by
    simp [loadAllFromEEPROM, h]
  refine ⟨hload, ?_⟩
  simp [processSerialLine, loadLine, cstr, hload]

/-- A boot-time state over never-written (all 0xFF) storage. -/
def protoBoot : ProtoState :=
  { cfg := setDefaultConfig, tog := defaultTog, currentBank := 1, eeprom := fun _ => 255 }

theorem load_bad_magic_no_change_witness :
    readMagic protoBoot.eeprom ≠ EEPROM_MAGIC ∧
    (loadAllFromEEPROM protoBoot.eeprom protoBoot.cfg = (false, protoBoot.cfg) ∧
     processSerialLine loadLine protoBoot = (protoBoot, [Resp.errNoEepromConfig])) :=
  ⟨by decide, load_bad_magic_no_change protoBoot (by decide)⟩

-- -------------------- Claim C9 --------------------

/-- C9 (amended): `SET` requires at least eight tokens after the keyword
(a ninth and further tokens are ignored): on any missing token it responds
with the format error and on an out-of-range bank (outside 1–4) or switch
(outside 1–6) with the index error, and in both error cases the whole
state — slot grid, toggle bits, active bank, storage image — is exactly as
before the command. -/
theorem set_rejects_leave_state (line : List Nat) (st : ProtoState)
    (hset : (cstr line).take 4 = [83, 69, 84, 44]) :
    let t1 := nextTok (some ((cstr line).drop 4))
    let t2 := nextTok t1.2
    let t3 := nextTok t2.2
    let t4 := nextTok t3.2
    let t5 := nextTok t4.2
    let t6 := nextTok t5.2
    let t7 := nextTok t6.2
    let t8 := nextTok t7.2
    ((t1.1 = none ∨ t2.1 = none ∨ t3.1 = none ∨ t4.1 = none ∨
      t5.1 = none ∨ t6.1 = none ∨ t7.1 = none ∨ t8.1 = none) →
        processSerialLine line st = (st, [Resp.errBadSetFormat])) ∧
    (¬(t1.1 = none ∨ t2.1 = none ∨ t3.1 = none ∨ t4.1 = none ∨
       t5.1 = none ∨ t6.1 = none ∨ t7.1 = none ∨ t8.1 = none) →
      (atoi (t1.1.getD []) < 1 ∨ 4 < atoi (t1.1.getD []) ∨
       atoi (t2.1.getD []) < 1 ∨ 6 < atoi (t2.1.getD [])) →
        processSerialLine line st = (st, [Resp.errBadIndex])) := by
  intro t1 t2 t3 t4 t5 t6 t7 t8
  have hne : cstr line ≠ [] := by
    intro he
    rw [he] at hset
    simp at hset
  have hroute : processSerialLine line st = applySetLine (cstr line) st := by
    simp [processSerialLine, hne, hset]
  constructor
  · intro hmiss
    rw [hroute]
    simp only [applySetLine]
    rw [if_pos hmiss]
  · intro hsome hidx
    rw [hroute]
    simp only [applySetLine]
    rw [if_neg hsome, dif_pos hidx]

/-- `"SET,1,2"` — only two tokens after the keyword. -/
def setShortLine : List Nat := [83, 69, 84, 44, 49, 44, 50]

/-- `"SET,9,1,A,0,1,0,0,0"` — bank 9 out of range. -/
def setBadIdxLine : List Nat :=
  [83, 69, 84, 44, 57, 44, 49, 44, 65, 44, 48, 44, 49, 44, 48, 44, 48, 44, 48]

theorem set_rejects_leave_state_witness :
    processSerialLine setShortLine protoBoot = (protoBoot, [Resp.errBadSetFormat]) ∧
    processSerialLine setBadIdxLine protoBoot = (protoBoot, [Resp.errBadIndex]) := by
  constructor
  · have h := set_rejects_leave_state setShortLine protoBoot (by decide)
    simp only [] at h
    exact h.1 (by decide)
  · have h := set_rejects_leave_state setBadIdxLine protoBoot (by decide)
    simp only [] at h
    exact h.2 (by decide) (by decide)

/-- `"SET,1,1,AB,0,1,0,0,0,99"` — nine tokens after the keyword. -/
def setNineLine : List Nat :=
  [83, 69, 84, 44, 49, 44, 49, 44, 65, 66, 44, 48, 44, 49, 44, 48, 44, 48, 44, 48,
   44, 57, 57]

/-- C9 counterexample: a `SET` line carrying nine tokens after the keyword
is not rejected — it is accepted with `OK,SET` and rewrites the slot, so
the command does not require *exactly* eight tokens. -/
theorem set_extra_tokens_accepted :
    (processSerialLine setNineLine protoBoot).2 = [Resp.okSet] ∧
    (processSerialLine setNineLine protoBoot).1.cfg 0 0 ≠ protoBoot.cfg 0 0 := by
  decide

-- -------------------- Claim C5 --------------------

/-- C5 (amended): a successful `SET` rewrites exactly one slot and resets
that slot's toggle boolean to false; a successful or failed `LOAD` never
changes any toggle boolean (slots decoded from storage keep their old
toggle state). -/
theorem toggle_reset_on_set_only :
    (∀ (line : List Nat) (st : ProtoState),
      (processSerialLine line st).2 = [Resp.okSet] →
      ∃ (b : Fin 4) (s : Fin 6) (sl : Slot),
        (processSerialLine line st).1.cfg = updCfg st.cfg b s sl ∧
        (processSerialLine line st).1.tog = updTog st.tog b s false ∧
        (processSerialLine line st).1.tog b s = false) ∧
    (∀ st : ProtoState, (processSerialLine loadLine st).1.tog = st.tog) := by
  constructor
  · intro line st hok
    rcases hps : processSerialLine line st with ⟨st2, rs⟩
    rw [hps] at hok
    simp only at hok ⊢
    simp only [processSerialLine] at hps
    split_ifs at hps with h1 h2 h3 h4 h5
    · cases hps; cases hok
    · simp only [applySetLine] at hps
      split_ifs at hps with hm hidx
      · cases hps; cases hok
      · cases hps; cases hok
      · cases hps
        exact ⟨_, _, _, rfl, rfl, by simp [updTog]⟩
    · cases hps; cases hok
    · cases hps; cases hok
    · cases hps; cases hok
    · cases hps
      have hmem : Resp.okDumpDone ∈ dumpConfig st.cfg := by simp [dumpConfig]
      rw [hok] at hmem
      simp at hmem
    · cases hps; cases hok
  · intro st
    by_cases hm : readMagic st.eeprom = EEPROM_MAGIC <;>
      simp [processSerialLine, loadLine, cstr, loadAllFromEEPROM, hm]

/-- `"SET,1,1,VOL_,1,1,7,100,0"`. -/
def setVolLine : List Nat :=
  [83, 69, 84, 44, 49, 44, 49, 44, 86, 79, 76, 95, 44, 49, 44, 49, 44, 55, 44,
   49, 48, 48, 44, 48]

theorem toggle_reset_on_set_only_witness :
    (processSerialLine setVolLine protoBoot).2 = [Resp.okSet] ∧
    (∃ (b : Fin 4) (s : Fin 6) (sl : Slot),
      (processSerialLine setVolLine protoBoot).1.cfg = updCfg protoBoot.cfg b s sl ∧
      (processSerialLine setVolLine protoBoot).1.tog = updTog protoBoot.tog b s false ∧
      (processSerialLine setVolLine protoBoot).1.tog b s = false) ∧
    (processSerialLine loadLine protoBoot).1.tog = protoBoot.tog :=
  ⟨by decide, toggle_reset_on_set_only.1 setVolLine protoBoot (by decide),
    toggle_reset_on_set_only.2 protoBoot⟩

/-- An image with the magic marker whose slot(1,1) is a `CC_TOGGLE` on
channel 1, number 10, press value 100, label `"TOG "`. -/
def imgToggle : Nat → Nat := fun a =>
  if a = 0 then 0x46 else if a = 1 then 0x46
  else if a = 2 then 0x43 else if a = 3 then 0x4D
  else if a = 4 then 84 else if a = 5 then 79 else if a = 6 then 71
  else if a = 7 then 32 else if a = 8 then 5 else if a = 9 then 1
  else if a = 10 then 10 else if a = 11 then 100 else if a = 12 then 0
  else 0

/-- A state whose bank-1 switch-1 toggle bit is set, over `imgToggle`. -/
def protoTog : ProtoState :=
  { cfg := setDefaultConfig
    tog := fun b s => decide (b.val = 0 ∧ s.val = 0)
    currentBank := 1
    eeprom := imgToggle }

/-- C5 counterexample: a successful `LOAD` decodes slot(1,1) as a
`CC_TOGGLE` but leaves that slot's toggle boolean `true`, so the next
toggle press emits value 0, not `pressValue` (= 100) — `LOAD` does not
reset toggle state. -/
theorem load_does_not_reset_toggle :
    (processSerialLine loadLine protoTog).2 = [Resp.okLoaded] ∧
    ((processSerialLine loadLine protoTog).1.cfg 0 0).type = ACT_CC_TOGGLE ∧
    ((processSerialLine loadLine protoTog).1.cfg 0 0).vPress = 100 ∧
    (processSerialLine loadLine protoTog).1.tog 0 0 = true ∧
    (handleSwitchEvent (processSerialLine loadLine protoTog).1 0 true).2
      = [MidiOut.cc 1 10 0] := by
  decide

-- -------------------- Claim C8 --------------------

/-- C8 (amended): a newline always dispatches and resets the buffer,
whatever the outcome; a non-newline character appends while fewer than 219
bytes are buffered; the 220th character of a line clears the buffer and
emits the line-too-long error — but the following characters of the same
over-long line then accumulate as a fresh line, so a suffix of an
over-long line can later be dispatched as a command. -/
theorem rx_framing (st : RxState) (c : Nat) :
    (c % 256 = 10 → (serialRxChar st c).1.buf = []) ∧
    (c % 256 ≠ 10 → st.buf.length < 219 →
      serialRxChar st c = ({ st with buf := st.buf ++ [c % 256] }, [])) ∧
    (c % 256 ≠ 10 → ¬st.buf.length < 219 →
      serialRxChar st c = ({ st with buf := [] }, [Resp.errLineTooLong])) := by
  refine ⟨fun h => ?_, fun h hl => ?_, fun h hl => ?_⟩
  · simp [serialRxChar, h]
  · simp [serialRxChar, h, hl]
  · simp [serialRxChar, h, hl]

/-- A buffer already holding 219 bytes. -/
def rxFull : RxState := { buf := List.replicate 219 65, proto := protoBoot }

theorem rx_framing_witness :
    (serialRxChar { buf := [65], proto := protoBoot } 10).1.buf = [] ∧
    serialRxChar { buf := [65], proto := protoBoot } 66
      = ({ buf := [65, 66], proto := protoBoot }, []) ∧
    serialRxChar rxFull 66 = ({ buf := [], proto := protoBoot }, [Resp.errLineTooLong]) := by
  refine ⟨(rx_framing { buf := [65], proto := protoBoot } 10).1 (by decide), ?_, ?_⟩
  · have h := (rx_framing { buf := [65], proto := protoBoot } 66).2.1 (by decide) (by decide)
    simpa using h
  · have h := (rx_framing rxFull 66).2.2 (by decide) (by decide)
    simpa [rxFull] using h

/-- 219 filler bytes, one overflow byte, then `"SAVE"` and a newline: one
224-character line whose last four characters spell a command. -/
def longLineStream : List Nat :=
  List.replicate 219 65 ++ [88] ++ [83, 65, 86, 69, 10]

/-- C8 counterexample: feeding one over-long line, the firmware emits the
line-too-long error at the 220th character but then dispatches the line's
tail `"SAVE"` as a command (`OK,SAVED`) — the over-long line is not
discarded in its entirety. -/
theorem long_line_tail_dispatched :
    (serialRx { buf := [], proto := protoBoot } longLineStream).2
      = [Resp.errLineTooLong, Resp.okSaved] := by
  decide

-- -------------------- Claim C2 --------------------

theorem mem_splitComma_fst {x : Nat} : ∀ {l : List Nat}, x ∈ (splitComma l).1 → x ∈ l := by
  intro l
  induction l with
  | nil => simp [splitComma]
  | cons c cs ih =>
    simp only [splitComma]
    split_ifs with hc
    · simp
    · intro hx
      rcases List.mem_cons.mp hx with h | h
      · simp [h]
      · exact List.mem_cons_of_mem _ (ih h)

theorem mem_splitComma_snd {x : Nat} :
    ∀ {l r : List Nat}, (splitComma l).2 = some r → x ∈ r → x ∈ l := by
  intro l
  induction l with
  | nil => intro r h; simp [splitComma] at h
  | cons c cs ih =>
    intro r h hx
    simp only [splitComma] at h
    split_ifs at h with hc
    · injection h with h2
      subst h2
      exact List.mem_cons_of_mem _ hx
    · exact List.mem_cons_of_mem _ (ih h hx)

theorem mem_trimTok {x : Nat} {l : List Nat} (h : x ∈ trimTok l) : x ∈ l := by
  unfold trimTok at h
  rw [List.mem_reverse] at h
  have h2 := List.dropWhile_sublist (p := fun c => decide (c = 32))
    (l := (l.dropWhile (fun c => decide (c = 32))).reverse) |>.subset h
  rw [List.mem_reverse] at h2
  exact (List.dropWhile_sublist _).subset h2

theorem nextTok_fst_sub {p : Option (List Nat)} {l t : List Nat}
    (hp : ∀ r, p = some r → ∀ x ∈ r, x ∈ l) (ht : (nextTok p).1 = some t) :
    ∀ x ∈ t, x ∈ l := by
  cases p with
  | none => simp [nextTok] at ht
  | some r =>
    simp only [nextTok] at ht
    injection ht with ht2
    subst ht2
    intro x hx
    exact hp r rfl x (mem_splitComma_fst (mem_trimTok hx))

theorem nextTok_snd_sub {p : Option (List Nat)} {l : List Nat}
    (hp : ∀ r, p = some r → ∀ x ∈ r, x ∈ l) :
    ∀ r2, (nextTok p).2 = some r2 → ∀ x ∈ r2, x ∈ l := by
  cases p with
  | none => simp [nextTok]
  | some r =>
    intro r2 h2 x hx
    simp only [nextTok] at h2
    exact hp r rfl x (mem_splitComma_snd h2 hx)

/-- Every slot of the grid is in the round-trip-safe ranges. -/
def slotOkAll (cfg : Cfg) : Prop := ∀ (b : Fin 4) (s : Fin 6), slotOk (cfg b s)

theorem setSlot_ok {tlab : List Nat} (hlab : ∀ x ∈ tlab, 1 ≤ x ∧ x ≤ 254)
    (ty ch num vp vr : Int) : slotOk (setSlot tlab ty ch num vp vr) := by
  have hchar : ∀ i, 1 ≤ setLabelChar tlab i ∧ setLabelChar tlab i ≤ 254 := by
    intro i
    simp only [setLabelChar]
    by_cases hi : i < tlab.length
    · rw [List.getD_eq_getElem _ _ hi]
      have hm := hlab _ (List.getElem_mem hi)
      split_ifs <;> omega
    · rw [List.getD_eq_default _ _ (Nat.le_of_not_lt hi)]
      norm_num
  unfold setSlot slotOk
  refine ⟨(hchar 0).1, (hchar 0).2, (hchar 1).1, (hchar 1).2, (hchar 2).1, (hchar 2).2,
    (hchar 3).1, (hchar 3).2, ?_, ?_, ?_, ?_, ?_, ?_⟩ <;>
    simp only [ACT_NONE] <;> split_ifs <;> omega

/-- Bytes that survive the round trip: real serial bytes (< 256) that are
neither the 0xFF erased-cell sentinel nor the null terminator. -/
def goodByte (c : Nat) : Prop := c < 256 ∧ c ≠ 255 ∧ c ≠ 0

/-- A successful or failed `SET` line whose bytes are `goodByte` preserves
`slotOkAll`. -/
theorem applySetLine_preserves (l : List Nat) (st : ProtoState)
    (hok : slotOkAll st.cfg) (hgood : ∀ c ∈ l, goodByte c) :
    slotOkAll (applySetLine l st).1.cfg := by
  have hsub0 : ∀ r, some (l.drop 4) = some r → ∀ x ∈ r, x ∈ l := by
    intro r hr x hx
    injection hr with hr2
    subst hr2
    exact (List.drop_sublist _ _).subset hx
  simp only [applySetLine]
  split_ifs with hm hidx
  · exact hok
  · exact hok
  · intro b s
    simp only [updCfg]
    split_ifs with hbs
    · rcases ht : (nextTok (nextTok (nextTok (some (l.drop 4))).2).2).1 with _ | tlab
      · push_neg at hm
        exact absurd ht hm.2.2.1
      · simp only [Option.getD_some]
        refine setSlot_ok (fun x hx => ?_) _ _ _ _ _
        have hsub1 := nextTok_snd_sub hsub0
        have hsub2 := nextTok_snd_sub hsub1
        have hx2 := nextTok_fst_sub hsub2 ht x hx
        have := hgood x hx2
        unfold goodByte at this
        omega
    · exact hok b s

theorem slotOkAll_default : slotOkAll setDefaultConfig := by
  intro b s
  fin_cases b <;> fin_cases s <;> decide

/-- Loading a freshly saved image succeeds and reproduces the saved grid
(whatever grid was in memory before), provided the grid is `slotOkAll`. -/
theorem loadAll_saveAll (cfg cfg0 : Cfg) (img : Nat → Nat) (h : slotOkAll cfg) :
    loadAllFromEEPROM (saveAllToEEPROM cfg img) cfg0 = (true, cfg) := by
  have hm := readMagic_saveAll cfg img
  simp only [loadAllFromEEPROM, hm, ne_eq, not_true_eq_false, if_false]
  refine congrArg (Prod.mk true) ?_
  funext b s
  exact eepromReadSlot_saveAll cfg img b s (h b s)

theorem cstr_good {l : List Nat} (hgood : ∀ c ∈ l, c < 256 ∧ c ≠ 255) :
    ∀ c ∈ cstr l, goodByte c := by
  intro c hc
  have h0 := List.mem_takeWhile_imp hc
  have hm := (List.takeWhile_sublist _).subset hc
  have h1 := hgood c hm
  simp only [ne_eq, decide_not, Bool.not_eq_true', decide_eq_false_iff_not] at h0
  exact ⟨h1.1, h1.2, h0⟩

theorem processSerialLine_set_preserves (l : List Nat) (st : ProtoState)
    (hok : slotOkAll st.cfg) (hset : (cstr l).take 4 = [83, 69, 84, 44])
    (hgood : ∀ c ∈ l, c < 256 ∧ c ≠ 255) :
    slotOkAll (processSerialLine l st).1.cfg := by
  have hne : cstr l ≠ [] := by
    intro he
    rw [he] at hset
    simp at hset
  have hr : processSerialLine l st = applySetLine (cstr l) st := by
    simp [processSerialLine, hne, hset]
  rw [hr]
  exact applySetLine_preserves _ st hok (cstr_good hgood)

/-- The protocol state after a sequence of received command lines. -/
def processLines (lines : List (List Nat)) (st : ProtoState) : ProtoState :=
  lines.foldl (fun s l => (processSerialLine l s).1) st

theorem processLines_preserves (lines : List (List Nat)) (st : ProtoState)
    (hok : slotOkAll st.cfg)
    (hlines : ∀ l ∈ lines, (cstr l).take 4 = [83, 69, 84, 44] ∧ ∀ c ∈ l, c < 256 ∧ c ≠ 255) :
    slotOkAll (processLines lines st).cfg := by
  induction lines generalizing st with
  | nil => exact hok
  | cons l rest ih =>
    exact ih _
      (processSerialLine_set_preserves l st hok (hlines l (by simp)).1 (hlines l (by simp)).2)
      (fun l2 h2 => hlines l2 (List.mem_cons_of_mem _ h2))

/-- The `"SAVE"` command line. -/
def saveLine : List Nat := [83, 65, 86, 69]

/-- The `"DUMP"` command line. -/
def dumpCmdLine : List Nat := [68, 85, 77, 80]

/-- C2 (amended): after any sequence of `SET` lines (over any
`slotOkAll` starting grid) whose bytes are real serial bytes none of which
is the 0xFF erased-cell sentinel, `SAVE` acknowledges, a power cycle
(default grid, then the boot-time load of the persisted image) followed by
the `LOAD` command reproduces the pre-save grid exactly, and `DUMP` then
emits the same 24 `SET` lines as a `DUMP` of the original configuration. -/
theorem set_save_powercycle_load_dump_roundtrip
    (lines : List (List Nat)) (st0 : ProtoState) (hok0 : slotOkAll st0.cfg)
    (hlines : ∀ l ∈ lines, (cstr l).take 4 = [83, 69, 84, 44] ∧ ∀ c ∈ l, c < 256 ∧ c ≠ 255) :
    (processSerialLine saveLine (processLines lines st0)).2 = [Resp.okSaved] ∧
    loadAllFromEEPROM (processSerialLine saveLine (processLines lines st0)).1.eeprom
        setDefaultConfig
      = (true, (processLines lines st0).cfg) ∧
    processSerialLine loadLine
        { cfg := (loadAllFromEEPROM
            (processSerialLine saveLine (processLines lines st0)).1.eeprom
            setDefaultConfig).2
          tog := defaultTog
          currentBank := 1
          eeprom := (processSerialLine saveLine (processLines lines st0)).1.eeprom }
      = ({ cfg := (processLines lines st0).cfg
           tog := defaultTog
           currentBank := 1
           eeprom := (processSerialLine saveLine (processLines lines st0)).1.eeprom },
         [Resp.okLoaded]) ∧
    (processSerialLine dumpCmdLine
        { cfg := (processLines lines st0).cfg
          tog := defaultTog
          currentBank := 1
          eeprom := (processSerialLine saveLine (processLines lines st0)).1.eeprom }).2
      = dumpConfig (processLines lines st0).cfg := by
  have hok1 := processLines_preserves lines st0 hok0 hlines
  have hsave : processSerialLine saveLine (processLines lines st0)
      = ({ processLines lines st0 with
            eeprom := saveAllToEEPROM (processLines lines st0).cfg
              (processLines lines st0).eeprom }, [Resp.okSaved]) := by
    simp [processSerialLine, saveLine, cstr]
  rw [hsave]
  simp only []
  have hload1 := loadAll_saveAll (processLines lines st0).cfg setDefaultConfig
    (processLines lines st0).eeprom hok1
  have hload2 := loadAll_saveAll (processLines lines st0).cfg (processLines lines st0).cfg
    (processLines lines st0).eeprom hok1
  refine ⟨trivial, hload1, ?_, ?_⟩
  · rw [hload1]
    simp only []
    simp [processSerialLine, loadLine, cstr, hload2]
  · simp [processSerialLine, dumpCmdLine, cstr]

theorem set_save_powercycle_load_dump_roundtrip_witness :
    (processSerialLine saveLine (processLines [setVolLine] protoBoot)).2 = [Resp.okSaved] ∧
    loadAllFromEEPROM (processSerialLine saveLine (processLines [setVolLine] protoBoot)).1.eeprom
        setDefaultConfig
      = (true, (processLines [setVolLine] protoBoot).cfg) ∧
    processSerialLine loadLine
        { cfg := (loadAllFromEEPROM
            (processSerialLine saveLine (processLines [setVolLine] protoBoot)).1.eeprom
            setDefaultConfig).2
          tog := defaultTog
          currentBank := 1
          eeprom := (processSerialLine saveLine (processLines [setVolLine] protoBoot)).1.eeprom }
      = ({ cfg := (processLines [setVolLine] protoBoot).cfg
           tog := defaultTog
           currentBank := 1
           eeprom := (processSerialLine saveLine (processLines [setVolLine] protoBoot)).1.eeprom },
         [Resp.okLoaded]) ∧
    (processSerialLine dumpCmdLine
        { cfg := (processLines [setVolLine] protoBoot).cfg
          tog := defaultTog
          currentBank := 1
          eeprom := (processSerialLine saveLine (processLines [setVolLine] protoBoot)).1.eeprom }).2
      = dumpConfig (processLines [setVolLine] protoBoot).cfg :=
  set_save_powercycle_load_dump_roundtrip [setVolLine] protoBoot slotOkAll_default
    (by decide)

/-- `"SET,1,1,"` then the label bytes 0xFF `'A'` `'B'` `'C'`, then
`",1,1,7,100,0"`: an accepted `SET` whose label carries the erased-cell
sentinel byte. -/
def setFFLine : List Nat :=
  [83, 69, 84, 44, 49, 44, 49, 44, 255, 65, 66, 67, 44, 49, 44, 49, 44, 55, 44,
   49, 48, 48, 44, 48]

/-- C2 counterexample: a `SET` accepted with `OK,SET` whose label contains
the 0xFF byte does not survive `SAVE` + reload: the loaded slot differs
(0xFF was sanitized to a space) and the `DUMP` line list differs from the
original configuration's. -/
theorem roundtrip_fails_on_ff_label :
    (processSerialLine setFFLine protoBoot).2 = [Resp.okSet] ∧
    (loadAllFromEEPROM
      (saveAllToEEPROM (processSerialLine setFFLine protoBoot).1.cfg
        (processSerialLine setFFLine protoBoot).1.eeprom)
      setDefaultConfig).1 = true ∧
    (loadAllFromEEPROM
      (saveAllToEEPROM (processSerialLine setFFLine protoBoot).1.cfg
        (processSerialLine setFFLine protoBoot).1.eeprom)
      setDefaultConfig).2 0 0 ≠ (processSerialLine setFFLine protoBoot).1.cfg 0 0 ∧
    dumpConfig (loadAllFromEEPROM
      (saveAllToEEPROM (processSerialLine setFFLine protoBoot).1.cfg
        (processSerialLine setFFLine protoBoot).1.eeprom)
      setDefaultConfig).2
      ≠ dumpConfig (processSerialLine setFFLine protoBoot).1.cfg := by
  decide

-- -------------------- The loop() switch machinery --------------------

/-- A dispatch of the switch/chord machinery in one `loop()` iteration:
`sw i pressed` is a call to `handleSwitchEvent(i, pressed)` (an individual
switch action), `bankDown`/`bankUp` are the chord latches firing
`doBankDown()`/`doBankUp()`. -/
inductive Ev where
  | sw (i : Fin 6) (pressed : Bool)
  | bankDown
  | bankUp
deriving Repr, DecidableEq

/-- The across-iteration runtime state of `loop()`: debounce state per
switch, the chord-pending bookkeeping of switches 3..5 and the two chord
latches.  (`rawState` is re-sampled at the start of every iteration; its
across-iteration memory is `lastRaw`.) -/
structure LoopState where
  stable : Fin 6 → Bool
  lastRaw : Fin 6 → Bool
  lastChange : Fin 6 → Nat
  pending : Fin 6 → Bool
  pendingAt : Fin 6 → Nat
  sent : Fin 6 → Bool
  c45 : Bool
  c56 : Bool

/-- Result of the debounce-and-capture body for one switch. -/
structure SwOut where
  stable : Bool
  lastRaw : Bool
  lastChange : Nat
  pending : Bool
  pendingAt : Nat
  sent : Bool
  evs : List Ev

/-- The debounce-and-capture body for switch `i` in one iteration at time
`now` with raw sample `r`: record a raw edge, and once 35 time units
passed since the last raw change promote raw to stable; on a transition,
switches 3..5 defer a press as pending, resolve a release of an already
sent press normally, and resolve a release of a pending press as an
immediate press+release tap, while switches 0..2 dispatch immediately. -/
def swStep (now : Nat) (i : Fin 6) (r : Bool) (st : LoopState) : SwOut :=
  let lastChange2 := if r ≠ st.lastRaw i then now else st.lastChange i
  if 35 ≤ now - lastChange2 ∧ st.stable i ≠ r then
    if 3 ≤ i.val then
      if r then
        { stable := r, lastRaw := r, lastChange := lastChange2,
          pending := true, pendingAt := now, sent := st.sent i, evs := [] }
      else if st.sent i then
        { stable := r, lastRaw := r, lastChange := lastChange2,
          pending := st.pending i, pendingAt := st.pendingAt i, sent := false,
          evs := [Ev.sw i false] }
      else if st.pending i then
        { stable := r, lastRaw := r, lastChange := lastChange2,
          pending := false, pendingAt := st.pendingAt i, sent := st.sent i,
          evs := [Ev.sw i true, Ev.sw i false] }
      else
        { stable := r, lastRaw := r, lastChange := lastChange2,
          pending := st.pending i, pendingAt := st.pendingAt i, sent := st.sent i,
          evs := [] }
    else
      { stable := r, lastRaw := r, lastChange := lastChange2,
        pending := st.pending i, pendingAt := st.pendingAt i, sent := st.sent i,
        evs := [Ev.sw i r] }
  else
    { stable := st.stable i, lastRaw := r, lastChange := lastChange2,
      pending := st.pending i, pendingAt := st.pendingAt i, sent := st.sent i,
      evs := [] }

/-- The debounce-and-capture phase over all six switches. -/
def debouncePhase (now : Nat) (rawIn : Fin 6 → Bool) (st : LoopState) :
    LoopState × List Ev :=
  ({ stable := fun i => (swStep now i (rawIn i) st).stable
     lastRaw := fun i => (swStep now i (rawIn i) st).lastRaw
     lastChange := fun i => (swStep now i (rawIn i) st).lastChange
     pending := fun i => (swStep now i (rawIn i) st).pending
     pendingAt := fun i => (swStep now i (rawIn i) st).pendingAt
     sent := fun i => (swStep now i (rawIn i) st).sent
     c45 := st.c45
     c56 := st.c56 },
   (List.finRange 6).flatMap fun i => (swStep now i (rawIn i) st).evs)

/-- `chord45 = sw4 && sw5` of the source (stable states of switches
indexed 3 and 4). -/
def chordCond45 (st : LoopState) : Bool := st.stable 3 && st.stable 4

/-- `chord56 = sw5 && sw6` of the source (stable states of switches
indexed 4 and 5). -/
def chordCond56 (st : LoopState) : Bool := st.stable 4 && st.stable 5

/-- Clear the pending/sent bookkeeping of switches 3..5 on chord entry. -/
def clear345 (f : Fin 6 → Bool) : Fin 6 → Bool := fun i => if 3 ≤ i.val then false else f i

/-- The edge-latched chord arbitration: on the latch edge of an active
chord pair, discard all individual bookkeeping of switches 3..5 and fire
the bank action once; an inactive pair resets its latch. -/
def chordPhase (st1 : LoopState) : LoopState × List Ev :=
  let r45 : LoopState × List Ev :=
    if chordCond45 st1 then
      if !st1.c45 then
        ({ st1 with
            c45 := true
            pending := clear345 st1.pending
            sent := clear345 st1.sent }, [Ev.bankDown])
      else (st1, [])
    else ({ st1 with c45 := false }, [])
  let st2 := r45.1
  let r56 : LoopState × List Ev :=
    if chordCond56 st1 then
      if !st2.c56 then
        ({ st2 with
            c56 := true
            pending := clear345 st2.pending
            sent := clear345 st2.sent }, [Ev.bankUp])
      else (st2, [])
    else ({ st2 with c56 := false }, [])
  (r56.1, r45.2 ++ r56.2)

/-- The timeout body for one of switches 3..5: a pending press whose
120-unit chord window elapsed is committed (dispatched) now. -/
def timeoutOne (now : Nat) (i : Fin 6) (st : LoopState) : LoopState × List Ev :=
  if st.pending i = true ∧ 120 ≤ now - st.pendingAt i then
    ({ st with
        pending := fun j => if j = i then false else st.pending j
        sent := fun j => if j = i then true else st.sent j }, [Ev.sw i true])
  else (st, [])

/-- The pending-press timeout phase for switches 3..5 (run only when no
chord condition holds). -/
def timeoutPhase (now : Nat) (st : LoopState) : LoopState × List Ev :=
  let ta := timeoutOne now 3 st
  let tb := timeoutOne now 4 ta.1
  let tc := timeoutOne now 5 tb.1
  (tc.1, ta.2 ++ tb.2 ++ tc.2)

/-- One full `loop()` iteration after the serial drain: debounce, chord
arbitration, then — only when no chord condition currently holds — the
pending-press timeouts. -/
def loopStep (now : Nat) (rawIn : Fin 6 → Bool) (st : LoopState) :
    LoopState × List Ev :=
  let d := debouncePhase now rawIn st
  let c := chordPhase d.1
  if chordCond45 d.1 || chordCond56 d.1 then (c.1, d.2 ++ c.2)
  else
    let t := timeoutPhase now c.1
    (t.1, d.2 ++ c.2 ++ t.2)

/-- Run `loop()` iterations over `(millis, raw samples)` inputs,
concatenating the dispatched events. -/
def loopRun (st : LoopState) : List (Nat × (Fin 6 → Bool)) → LoopState × List Ev
  | [] => (st, [])
  | u :: us =>
    let r := loopStep u.1 u.2 st
    let r2 := loopRun r.1 us
    (r2.1, r.2 ++ r2.2)

/-- The switch state established by `setup()` from the first GPIO sample
`raw0` at time `t0`. -/
def bootLoopState (raw0 : Fin 6 → Bool) (t0 : Nat) : LoopState :=
  { stable := raw0, lastRaw := raw0, lastChange := fun _ => t0,
    pending := fun _ => false, pendingAt := fun _ => 0, sent := fun _ => false,
    c45 := false, c56 := false }

/-- The boot-time part of the chord invariant: a set latch implies its
chord condition, an active chord pair implies clear 3..5 bookkeeping, and
pending/sent imply the switch is stable-pressed and never both hold. -/
def PreInv (st : LoopState) : Prop :=
  (st.c45 = true → chordCond45 st = true) ∧
  (st.c56 = true → chordCond56 st = true) ∧
  (chordCond45 st = true ∨ chordCond56 st = true →
    ∀ i : Fin 6, 3 ≤ i.val → st.pending i = false ∧ st.sent i = false) ∧
  (∀ i : Fin 6, 3 ≤ i.val →
    (st.pending i = true → st.stable i = true) ∧
    (st.sent i = true → st.stable i = true) ∧
    ¬(st.pending i = true ∧ st.sent i = true))

/-- The full invariant re-established by every `loop()` iteration: the
latches mirror the chord conditions exactly, plus `PreInv`. -/
def Inv (st : LoopState) : Prop :=
  st.c45 = chordCond45 st ∧ st.c56 = chordCond56 st ∧ PreInv st

instance (st : LoopState) : Decidable (PreInv st) := by
  unfold PreInv
  infer_instance

instance (st : LoopState) : Decidable (Inv st) := by
  unfold Inv
  infer_instance

-- -------------------- swStep facts --------------------

theorem swStep_lastChange (now : Nat) (i : Fin 6) (r : Bool) (st : LoopState) :
    (swStep now i r st).lastChange
      = if r ≠ st.lastRaw i then now else st.lastChange i := by
  simp only [swStep]
  split_ifs <;> rfl

theorem swStep_lastRaw (now : Nat) (i : Fin 6) (r : Bool) (st : LoopState) :
    (swStep now i r st).lastRaw = r := by
  simp only [swStep]
  split_ifs <;> rfl

/-- A qualifying edge — raw differing from stable, with the (updated)
last-raw-change time at least 35 units old — promotes raw to stable. -/
theorem swStep_stable_of_cond (now : Nat) (i : Fin 6) (r : Bool) (st : LoopState)
    (hc : 35 ≤ now - (if r ≠ st.lastRaw i then now else st.lastChange i) ∧
      st.stable i ≠ r) :
    (swStep now i r st).stable = r := by
  simp only [swStep]
  rw [if_pos hc]
  split_ifs <;> rfl

/-- Without a qualifying edge the stable state is unchanged. -/
theorem swStep_stable_stays (now : Nat) (i : Fin 6) (r : Bool) (st : LoopState)
    (hc : ¬(35 ≤ now - (if r ≠ st.lastRaw i then now else st.lastChange i) ∧
      st.stable i ≠ r)) :
    (swStep now i r st).stable = st.stable i := by
  simp only [swStep]
  rw [if_neg hc]

/-- A stable change only happens on a qualifying edge, and then the new
stable value is the raw sample. -/
theorem swStep_stable_change (now : Nat) (i : Fin 6) (r : Bool) (st : LoopState)
    (h : (swStep now i r st).stable ≠ st.stable i) :
    st.stable i ≠ r ∧
    35 ≤ now - (if r ≠ st.lastRaw i then now else st.lastChange i) ∧
    (swStep now i r st).stable = r := by
  by_cases hc : 35 ≤ now - (if r ≠ st.lastRaw i then now else st.lastChange i) ∧
      st.stable i ≠ r
  · exact ⟨hc.2, hc.1, swStep_stable_of_cond now i r st hc⟩
  · exact absurd (swStep_stable_stays now i r st hc) h

/-- No stable change: all chord bookkeeping fields are unchanged and no
event is emitted by the debounce body. -/
theorem swStep_keep (now : Nat) (i : Fin 6) (r : Bool) (st : LoopState)
    (h : (swStep now i r st).stable = st.stable i) :
    (swStep now i r st).pending = st.pending i ∧
    (swStep now i r st).sent = st.sent i ∧
    (swStep now i r st).pendingAt = st.pendingAt i ∧
    (swStep now i r st).evs = [] := by
  simp only [swStep] at h ⊢
  split_ifs at h ⊢ with h1 h2 h3 h4 h5 <;> simp_all

theorem swStep_press (now : Nat) (i : Fin 6) (r : Bool) (st : LoopState)
    (hi : 3 ≤ i.val) (h0 : st.stable i = false)
    (h1 : (swStep now i r st).stable = true) :
    (swStep now i r st).pending = true ∧
    (swStep now i r st).pendingAt = now ∧
    (swStep now i r st).sent = st.sent i ∧
    (swStep now i r st).evs = [] := by
  simp only [swStep] at h1 ⊢
  split_ifs at h1 ⊢ with h2 h3 h4 h5 h6 <;> simp_all

theorem swStep_release_sent (now : Nat) (i : Fin 6) (r : Bool) (st : LoopState)
    (hi : 3 ≤ i.val) (h0 : st.stable i = true)
    (h1 : (swStep now i r st).stable = false) (hs : st.sent i = true) :
    (swStep now i r st).evs = [Ev.sw i false] ∧
    (swStep now i r st).sent = false ∧
    (swStep now i r st).pending = st.pending i ∧
    (swStep now i r st).pendingAt = st.pendingAt i := by
  simp only [swStep] at h1 ⊢
  split_ifs at h1 ⊢ with h2 h3 h4 h5 h6 <;> simp_all

theorem swStep_release_tap (now : Nat) (i : Fin 6) (r : Bool) (st : LoopState)
    (hi : 3 ≤ i.val) (h0 : st.stable i = true)
    (h1 : (swStep now i r st).stable = false) (hs : st.sent i = false)
    (hp : st.pending i = true) :
    (swStep now i r st).evs = [Ev.sw i true, Ev.sw i false] ∧
    (swStep now i r st).sent = false ∧
    (swStep now i r st).pending = false ∧
    (swStep now i r st).pendingAt = st.pendingAt i := by
  simp only [swStep] at h1 ⊢
  split_ifs at h1 ⊢ with h2 h3 h4 h5 h6 <;> simp_all

theorem swStep_release_idle (now : Nat) (i : Fin 6) (r : Bool) (st : LoopState)
    (hi : 3 ≤ i.val) (h0 : st.stable i = true)
    (h1 : (swStep now i r st).stable = false) (hs : st.sent i = false)
    (hp : st.pending i = false) :
    (swStep now i r st).evs = [] ∧
    (swStep now i r st).sent = false ∧
    (swStep now i r st).pending = false ∧
    (swStep now i r st).pendingAt = st.pendingAt i := by
  simp only [swStep] at h1 ⊢
  split_ifs at h1 ⊢ with h2 h3 h4 h5 h6 <;> simp_all

/-- Switches 0..2 bypass the chord arbiter: an edge dispatches exactly one
event carrying the new stable value and never touches the bookkeeping. -/
theorem swStep_low (now : Nat) (i : Fin 6) (r : Bool) (st : LoopState)
    (hi : i.val < 3) :
    (swStep now i r st).pending = st.pending i ∧
    (swStep now i r st).sent = st.sent i ∧
    (swStep now i r st).evs
      = (if (swStep now i r st).stable = st.stable i then []
         else [Ev.sw i ((swStep now i r st).stable)]) := by
  simp only [swStep]
  split_ifs with h1 h2 <;> simp_all <;> omega

theorem swStep_evs_shape (now : Nat) (i : Fin 6) (r : Bool) (st : LoopState) :
    ∀ e ∈ (swStep now i r st).evs, ∃ b, e = Ev.sw i b := by
  simp only [swStep]
  split_ifs <;> simp_all

theorem swStep_sent_src (now : Nat) (i : Fin 6) (r : Bool) (st : LoopState)
    (h : (swStep now i r st).sent = true) : st.sent i = true := by
  simp only [swStep] at h
  split_ifs at h <;> simp_all

theorem swStep_pending_src (now : Nat) (i : Fin 6) (r : Bool) (st : LoopState)
    (h : (swStep now i r st).pending = true) :
    st.pending i = true ∨ (st.stable i = false ∧ (swStep now i r st).stable = true) := by
  simp only [swStep] at h ⊢
  split_ifs at h ⊢ <;> simp_all

theorem swStep_flag_inv (now : Nat) (i : Fin 6) (r : Bool) (st : LoopState)
    (hi : 3 ≤ i.val)
    (hp : st.pending i = true → st.stable i = true)
    (hs : st.sent i = true → st.stable i = true)
    (hb : ¬(st.pending i = true ∧ st.sent i = true)) :
    ((swStep now i r st).pending = true → (swStep now i r st).stable = true) ∧
    ((swStep now i r st).sent = true → (swStep now i r st).stable = true) ∧
    ¬((swStep now i r st).pending = true ∧ (swStep now i r st).sent = true) := by
  simp only [swStep]
  split_ifs <;> simp_all

-- -------------------- chordPhase facts --------------------

theorem chordPhase_fixed (st : LoopState) :
    (chordPhase st).1.stable = st.stable ∧
    (chordPhase st).1.lastRaw = st.lastRaw ∧
    (chordPhase st).1.lastChange = st.lastChange ∧
    (chordPhase st).1.pendingAt = st.pendingAt := by
  simp only [chordPhase]
  split_ifs <;> simp

theorem chordPhase_c45 (st : LoopState) :
    (chordPhase st).1.c45 = chordCond45 st := by
  simp only [chordPhase]
  split_ifs <;> simp_all

theorem chordPhase_c56 (st : LoopState) :
    (chordPhase st).1.c56 = chordCond56 st := by
  simp only [chordPhase]
  split_ifs <;> simp_all

theorem chordPhase_flags (st : LoopState) (i : Fin 6) (hi : 3 ≤ i.val) :
    ((chordPhase st).1.pending i
      = if (chordCond45 st && !st.c45) || (chordCond56 st && !st.c56) then false
        else st.pending i) ∧
    ((chordPhase st).1.sent i
      = if (chordCond45 st && !st.c45) || (chordCond56 st && !st.c56) then false
        else st.sent i) := by
  simp only [chordPhase]
  split_ifs <;> simp_all [clear345, hi]

theorem chordPhase_evs (st : LoopState) :
    (chordPhase st).2
      = (if chordCond45 st && !st.c45 then [Ev.bankDown] else [])
        ++ (if chordCond56 st && !st.c56 then [Ev.bankUp] else []) := by
  simp only [chordPhase]
  split_ifs <;> simp_all

-- -------------------- timeoutPhase facts --------------------

/-- The commit condition of the timeout body for switch `i`. -/
def fired (now : Nat) (st : LoopState) (i : Fin 6) : Prop :=
  st.pending i = true ∧ 120 ≤ now - st.pendingAt i

instance (now : Nat) (st : LoopState) (i : Fin 6) : Decidable (fired now st i) := by
  unfold fired
  infer_instance

theorem timeoutPhase_fixed (now : Nat) (st : LoopState) :
    (timeoutPhase now st).1.stable = st.stable ∧
    (timeoutPhase now st).1.lastRaw = st.lastRaw ∧
    (timeoutPhase now st).1.lastChange = st.lastChange ∧
    (timeoutPhase now st).1.pendingAt = st.pendingAt ∧
    (timeoutPhase now st).1.c45 = st.c45 ∧
    (timeoutPhase now st).1.c56 = st.c56 := by
  simp only [timeoutPhase, timeoutOne]
  split_ifs <;> simp_all

theorem timeoutOne_flags_other (now : Nat) (i j : Fin 6) (st : LoopState) (h : j ≠ i) :
    (timeoutOne now i st).1.pending j = st.pending j ∧
    (timeoutOne now i st).1.sent j = st.sent j := by
  simp only [timeoutOne]
  split_ifs <;> simp [h]

theorem timeoutOne_self (now : Nat) (i : Fin 6) (st : LoopState) :
    ((timeoutOne now i st).1.pending i = if fired now st i then false else st.pending i) ∧
    ((timeoutOne now i st).1.sent i = if fired now st i then true else st.sent i) ∧
    ((timeoutOne now i st).2 = if fired now st i then [Ev.sw i true] else []) := by
  simp only [timeoutOne, fired]
  split_ifs <;> simp_all

theorem timeoutOne_pendingAt (now : Nat) (i : Fin 6) (st : LoopState) :
    (timeoutOne now i st).1.pendingAt = st.pendingAt := by
  simp only [timeoutOne]
  split_ifs <;> rfl

theorem fired_timeoutOne (now : Nat) (i j : Fin 6) (st : LoopState) (h : i ≠ j) :
    fired now (timeoutOne now j st).1 i ↔ fired now st i := by
  unfold fired
  rw [(timeoutOne_flags_other now j i st h).1, timeoutOne_pendingAt]

theorem timeoutPhase_flags (now : Nat) (st : LoopState) (i : Fin 6) (hi : 3 ≤ i.val) :
    ((timeoutPhase now st).1.pending i = if fired now st i then false else st.pending i) ∧
    ((timeoutPhase now st).1.sent i = if fired now st i then true else st.sent i) := by
  have hT : (timeoutPhase now st).1
      = (timeoutOne now 5 (timeoutOne now 4 (timeoutOne now 3 st).1).1).1 := rfl
  rcases (by omega : i = 3 ∨ i = 4 ∨ i = 5) with rfl | rfl | rfl
  · rw [hT]
    constructor
    · rw [(timeoutOne_flags_other now 5 3 _ (by decide)).1,
        (timeoutOne_flags_other now 4 3 _ (by decide)).1]
      exact (timeoutOne_self now 3 st).1
    · rw [(timeoutOne_flags_other now 5 3 _ (by decide)).2,
        (timeoutOne_flags_other now 4 3 _ (by decide)).2]
      exact (timeoutOne_self now 3 st).2.1
  · rw [hT]
    have h1 := timeoutOne_flags_other now 3 4 st (by decide)
    have h2 := fired_timeoutOne now 4 3 st (by decide)
    constructor
    · rw [(timeoutOne_flags_other now 5 4 _ (by decide)).1,
        (timeoutOne_self now 4 _).1, h1.1]
      simp only [h2]
    · rw [(timeoutOne_flags_other now 5 4 _ (by decide)).2,
        (timeoutOne_self now 4 _).2.1, h1.2]
      simp only [h2]
  · rw [hT]
    have ha := timeoutOne_flags_other now 3 5 st (by decide)
    have hb := timeoutOne_flags_other now 4 5 (timeoutOne now 3 st).1 (by decide)
    have hc := fired_timeoutOne now 5 4 (timeoutOne now 3 st).1 (by decide)
    have hd := fired_timeoutOne now 5 3 st (by decide)
    constructor
    · rw [(timeoutOne_self now 5 _).1, hb.1, ha.1]
      simp only [hc, hd]
    · rw [(timeoutOne_self now 5 _).2.1, hb.2, ha.2]
      simp only [hc, hd]

theorem timeoutPhase_flags_low (now : Nat) (st : LoopState) (i : Fin 6) (hi : i.val < 3) :
    (timeoutPhase now st).1.pending i = st.pending i ∧
    (timeoutPhase now st).1.sent i = st.sent i := by
  have hT : (timeoutPhase now st).1
      = (timeoutOne now 5 (timeoutOne now 4 (timeoutOne now 3 st).1).1).1 := rfl
  have h3 : i ≠ 3 := by omega
  have h4 : i ≠ 4 := by omega
  have h5 : i ≠ 5 := by omega
  rw [hT]
  constructor
  · rw [(timeoutOne_flags_other now 5 i _ h5).1, (timeoutOne_flags_other now 4 i _ h4).1,
      (timeoutOne_flags_other now 3 i _ h3).1]
  · rw [(timeoutOne_flags_other now 5 i _ h5).2, (timeoutOne_flags_other now 4 i _ h4).2,
      (timeoutOne_flags_other now 3 i _ h3).2]

theorem timeoutPhase_evs (now : Nat) (st : LoopState) :
    (timeoutPhase now st).2
      = (if fired now st 3 then [Ev.sw 3 true] else [])
        ++ (if fired now st 4 then [Ev.sw 4 true] else [])
        ++ (if fired now st 5 then [Ev.sw 5 true] else []) := by
  have hT : (timeoutPhase now st).2
      = (timeoutOne now 3 st).2 ++ (timeoutOne now 4 (timeoutOne now 3 st).1).2
        ++ (timeoutOne now 5 (timeoutOne now 4 (timeoutOne now 3 st).1).1).2 := rfl
  rw [hT, (timeoutOne_self now 3 st).2.2, (timeoutOne_self now 4 _).2.2,
    (timeoutOne_self now 5 _).2.2]
  have h2 := fired_timeoutOne now 4 3 st (by decide)
  have hc := fired_timeoutOne now 5 4 (timeoutOne now 3 st).1 (by decide)
  have hd := fired_timeoutOne now 5 3 st (by decide)
  simp only [h2, hc, hd]

-- -------------------- loopStep facts --------------------

theorem debouncePhase_stable (now : Nat) (raw : Fin 6 → Bool) (st : LoopState) (i : Fin 6) :
    (debouncePhase now raw st).1.stable i = (swStep now i (raw i) st).stable := rfl

theorem debouncePhase_pending (now : Nat) (raw : Fin 6 → Bool) (st : LoopState) (i : Fin 6) :
    (debouncePhase now raw st).1.pending i = (swStep now i (raw i) st).pending := rfl

theorem debouncePhase_sent (now : Nat) (raw : Fin 6 → Bool) (st : LoopState) (i : Fin 6) :
    (debouncePhase now raw st).1.sent i = (swStep now i (raw i) st).sent := rfl

theorem debouncePhase_pendingAt (now : Nat) (raw : Fin 6 → Bool) (st : LoopState) (i : Fin 6) :
    (debouncePhase now raw st).1.pendingAt i = (swStep now i (raw i) st).pendingAt := rfl

theorem debouncePhase_c45 (now : Nat) (raw : Fin 6 → Bool) (st : LoopState) :
    (debouncePhase now raw st).1.c45 = st.c45 := rfl

theorem debouncePhase_c56 (now : Nat) (raw : Fin 6 → Bool) (st : LoopState) :
    (debouncePhase now raw st).1.c56 = st.c56 := rfl

theorem debouncePhase_mem (now : Nat) (raw : Fin 6 → Bool) (st : LoopState) (e : Ev)
    (he : e ∈ (debouncePhase now raw st).2) :
    ∃ i : Fin 6, e ∈ (swStep now i (raw i) st).evs := by
  simp only [debouncePhase, List.mem_flatMap] at he
  obtain ⟨i, _, hm⟩ := he
  exact ⟨i, hm⟩

theorem loopStep_state (now : Nat) (raw : Fin 6 → Bool) (st : LoopState) :
    (loopStep now raw st).1
      = if chordCond45 (debouncePhase now raw st).1 || chordCond56 (debouncePhase now raw st).1
        then (chordPhase (debouncePhase now raw st).1).1
        else (timeoutPhase now (chordPhase (debouncePhase now raw st).1).1).1 := by
  simp only [loopStep]
  split_ifs <;> rfl

theorem loopStep_evs (now : Nat) (raw : Fin 6 → Bool) (st : LoopState) :
    (loopStep now raw st).2
      = (debouncePhase now raw st).2 ++ (chordPhase (debouncePhase now raw st).1).2
        ++ (if chordCond45 (debouncePhase now raw st).1
              || chordCond56 (debouncePhase now raw st).1
            then []
            else (timeoutPhase now (chordPhase (debouncePhase now raw st).1).1).2) := by
  simp only [loopStep]
  split_ifs with h <;> simp [h]

theorem loopStep_stable (now : Nat) (raw : Fin 6 → Bool) (st : LoopState) (i : Fin 6) :
    (loopStep now raw st).1.stable i = (swStep now i (raw i) st).stable := by
  rw [loopStep_state]
  split_ifs
  · rw [(chordPhase_fixed _).1]
    rfl
  · rw [(timeoutPhase_fixed _ _).1, (chordPhase_fixed _).1]
    rfl

theorem loopStep_cond45 (now : Nat) (raw : Fin 6 → Bool) (st : LoopState) :
    chordCond45 (loopStep now raw st).1 = chordCond45 (debouncePhase now raw st).1 := by
  unfold chordCond45
  rw [loopStep_stable, loopStep_stable]
  rfl

theorem loopStep_cond56 (now : Nat) (raw : Fin 6 → Bool) (st : LoopState) :
    chordCond56 (loopStep now raw st).1 = chordCond56 (debouncePhase now raw st).1 := by
  unfold chordCond56
  rw [loopStep_stable, loopStep_stable]
  rfl

/-- With clear 3..5 bookkeeping, the debounce body of a switch 3..5 never
emits an event (a press is deferred, a release finds nothing to resolve). -/
theorem swStep_no_events_of_clear (now : Nat) (i : Fin 6) (r : Bool) (st : LoopState)
    (hi : 3 ≤ i.val) (hp : st.pending i = false) (hs : st.sent i = false) :
    (swStep now i r st).evs = [] := by
  by_cases hch : (swStep now i r st).stable = st.stable i
  · exact (swStep_keep now i r st hch).2.2.2
  · rcases hpre : st.stable i with _ | _
    · have hpost : (swStep now i r st).stable = true := by
        rcases hb : (swStep now i r st).stable with _ | _
        · rw [hpre] at hch
          exact absurd hb hch
        · rfl
      exact (swStep_press now i r st hi hpre hpost).2.2.2
    · have hpost : (swStep now i r st).stable = false := by
        rcases hb : (swStep now i r st).stable with _ | _
        · rfl
        · rw [hpre] at hch
          exact absurd hb hch
      exact (swStep_release_idle now i r st hi hpre hpost hs hp).1

theorem debounce_evs_shape (now : Nat) (raw : Fin 6 → Bool) (st : LoopState) (e : Ev)
    (he : e ∈ (debouncePhase now raw st).2) : ∃ j b, e = Ev.sw j b := by
  obtain ⟨j, hj⟩ := debouncePhase_mem now raw st e he
  obtain ⟨b, hb⟩ := swStep_evs_shape now j (raw j) st e hj
  exact ⟨j, b, hb⟩

theorem timeout_evs_shape (now : Nat) (st : LoopState) (e : Ev)
    (he : e ∈ (timeoutPhase now st).2) : ∃ j b, e = Ev.sw j b := by
  rw [timeoutPhase_evs] at he
  rcases List.mem_append.mp he with h1 | h1
  · rcases List.mem_append.mp h1 with h2 | h2 <;> (split_ifs at h2 <;> simp_all)
  · split_ifs at h1 <;> simp_all

theorem count_eq_zero_of_shape {l : List Ev} (h : ∀ e ∈ l, ∃ j b, e = Ev.sw j b) :
    l.count Ev.bankDown = 0 ∧ l.count Ev.bankUp = 0 := by
  constructor <;>
    · rw [List.count_eq_zero]
      intro hmem
      obtain ⟨j, b, hb⟩ := h _ hmem
      cases hb

/-- The chord bank actions fired in one iteration, counted: exactly one
`bankDown` when the 3∧4 chord condition holds with its latch clear, and
none otherwise (and correspondingly for `bankUp`). -/
theorem loopStep_count_bank (now : Nat) (raw : Fin 6 → Bool) (st : LoopState) :
    ((loopStep now raw st).2).count Ev.bankDown
      = (if chordCond45 (debouncePhase now raw st).1 && !st.c45 then 1 else 0) ∧
    ((loopStep now raw st).2).count Ev.bankUp
      = (if chordCond56 (debouncePhase now raw st).1 && !st.c56 then 1 else 0) := by
  rw [loopStep_evs, chordPhase_evs]
  have hd := count_eq_zero_of_shape (debounce_evs_shape now raw st)
  have ht := count_eq_zero_of_shape
    (timeout_evs_shape now (chordPhase (debouncePhase now raw st).1).1)
  have hc45 : (debouncePhase now raw st).1.c45 = st.c45 := rfl
  have hc56 : (debouncePhase now raw st).1.c56 = st.c56 := rfl
  rw [hc45, hc56]
  constructor <;>
    · simp only [List.count_append, hd.1, hd.2]
      split_ifs <;> simp_all [List.count_cons]

theorem loopStep_c45_eq (now : Nat) (raw : Fin 6 → Bool) (st : LoopState) :
    (loopStep now raw st).1.c45 = chordCond45 (loopStep now raw st).1 := by
  rw [loopStep_cond45, loopStep_state]
  split_ifs
  · rw [chordPhase_c45]
  · rw [(timeoutPhase_fixed _ _).2.2.2.2.1, chordPhase_c45]

theorem loopStep_c56_eq (now : Nat) (raw : Fin 6 → Bool) (st : LoopState) :
    (loopStep now raw st).1.c56 = chordCond56 (loopStep now raw st).1 := by
  rw [loopStep_cond56, loopStep_state]
  split_ifs
  · rw [chordPhase_c56]
  · rw [(timeoutPhase_fixed _ _).2.2.2.2.2, chordPhase_c56]

/-- With clear pending/sent bookkeeping on switches 3..5 before the
iteration, no individual action for any of switches 3..5 is dispatched in
that iteration (presses only arm pending state, and a fresh pending press
cannot time out in the same iteration). -/
theorem loopStep_no_sw345 (now : Nat) (raw : Fin 6 → Bool) (st : LoopState)
    (hflags : ∀ i : Fin 6, 3 ≤ i.val → st.pending i = false ∧ st.sent i = false)
    (i : Fin 6) (hi : 3 ≤ i.val) (b : Bool) :
    Ev.sw i b ∉ (loopStep now raw st).2 := by
  have hnotfired : ∀ j : Fin 6, 3 ≤ j.val →
      ¬fired now (chordPhase (debouncePhase now raw st).1).1 j := by
    intro j hj hf
    obtain ⟨hfp, hft⟩ := hf
    have hpa : (chordPhase (debouncePhase now raw st).1).1.pendingAt j
        = (swStep now j (raw j) st).pendingAt := by
      rw [(chordPhase_fixed _).2.2.2]
      rfl
    have hfl := (chordPhase_flags (debouncePhase now raw st).1 j hj).1
    rw [hfl] at hfp
    split_ifs at hfp
    rw [debouncePhase_pending] at hfp
    rcases swStep_pending_src now j (raw j) st hfp with hsrc | hsrc
    · rw [(hflags j hj).1] at hsrc
      cases hsrc
    · have hpr := swStep_press now j (raw j) st hj hsrc.1 hsrc.2
      rw [hpa, hpr.2.1] at hft
      omega
  rw [loopStep_evs]
  intro hmem
  rcases List.mem_append.mp hmem with hmem1 | hmem2
  · rcases List.mem_append.mp hmem1 with hdm | hcm
    · obtain ⟨j, hj⟩ := debouncePhase_mem now raw st _ hdm
      by_cases hj3 : 3 ≤ j.val
      · rw [swStep_no_events_of_clear now j (raw j) st hj3 (hflags j hj3).1
          (hflags j hj3).2] at hj
        cases hj
      · obtain ⟨b2, hb2⟩ := swStep_evs_shape now j (raw j) st _ hj
        have : i = j := by cases hb2; rfl
        omega
    · rw [chordPhase_evs] at hcm
      rcases List.mem_append.mp hcm with h1 | h1 <;> (split_ifs at h1 <;> simp_all)
  · split_ifs at hmem2 with hcond
    · cases hmem2
    · rw [timeoutPhase_evs] at hmem2
      rcases List.mem_append.mp hmem2 with h1 | h1
      · rcases List.mem_append.mp h1 with h2 | h2
        · split_ifs at h2 with hf
          · exact absurd hf (hnotfired 3 (by decide))
          · cases h2
        · split_ifs at h2 with hf
          · exact absurd hf (hnotfired 4 (by decide))
          · cases h2
      · split_ifs at h1 with hf
        · exact absurd hf (hnotfired 5 (by decide))
        · cases h1

/-- C4: with the chord invariant in force (it holds after every iteration
from boot): while switches 3 and 4 are both stable-pressed across an
iteration, no individual press or release action for switch 3, 4 or 5 is
dispatched and no BankDown fires; exactly one BankDown fires on the
iteration in which both stable states become simultaneously true; no
BankDown fires in an iteration that ends with the pair not jointly
pressed; and correspondingly for switches 4 and 5 with BankUp. -/
theorem chord_latch_behavior (now : Nat) (raw : Fin 6 → Bool) (st : LoopState)
    (hInv : Inv st) :
    (chordCond45 st = true → chordCond45 (loopStep now raw st).1 = true →
      (∀ i : Fin 6, 3 ≤ i.val → ∀ b, Ev.sw i b ∉ (loopStep now raw st).2) ∧
      Ev.bankDown ∉ (loopStep now raw st).2) ∧
    (chordCond45 st = false → chordCond45 (loopStep now raw st).1 = true →
      ((loopStep now raw st).2).count Ev.bankDown = 1) ∧
    (chordCond45 (loopStep now raw st).1 = false →
      Ev.bankDown ∉ (loopStep now raw st).2) ∧
    (chordCond56 st = true → chordCond56 (loopStep now raw st).1 = true →
      (∀ i : Fin 6, 3 ≤ i.val → ∀ b, Ev.sw i b ∉ (loopStep now raw st).2) ∧
      Ev.bankUp ∉ (loopStep now raw st).2) ∧
    (chordCond56 st = false → chordCond56 (loopStep now raw st).1 = true →
      ((loopStep now raw st).2).count Ev.bankUp = 1) ∧
    (chordCond56 (loopStep now raw st).1 = false →
      Ev.bankUp ∉ (loopStep now raw st).2) := by
  obtain ⟨hl45, hl56, hpre⟩ := hInv
  obtain ⟨_, _, hact, _⟩ := hpre
  have hcount := loopStep_count_bank now raw st
  refine ⟨?_, ?_, ?_, ?_, ?_, ?_⟩
  · intro hpre45 _
    refine ⟨loopStep_no_sw345 now raw st (hact (Or.inl hpre45)), ?_⟩
    intro hmem
    have h0 : ((loopStep now raw st).2).count Ev.bankDown = 0 := by
      rw [hcount.1, hl45, hpre45]
      simp
    rw [List.count_eq_zero] at h0
    exact h0 hmem
  · intro hpre45 hpost45
    rw [hcount.1, hl45, hpre45, ← loopStep_cond45, hpost45]
    simp
  · intro hpost45
    rw [loopStep_cond45] at hpost45
    have h0 : ((loopStep now raw st).2).count Ev.bankDown = 0 := by
      rw [hcount.1, hpost45]
      simp
    rw [List.count_eq_zero] at h0
    exact h0
  · intro hpre56 _
    refine ⟨loopStep_no_sw345 now raw st (hact (Or.inr hpre56)), ?_⟩
    intro hmem
    have h0 : ((loopStep now raw st).2).count Ev.bankUp = 0 := by
      rw [hcount.2, hl56, hpre56]
      simp
    rw [List.count_eq_zero] at h0
    exact h0 hmem
  · intro hpre56 hpost56
    rw [hcount.2, hl56, hpre56, ← loopStep_cond56, hpost56]
    simp
  · intro hpost56
    rw [loopStep_cond56] at hpost56
    have h0 : ((loopStep now raw st).2).count Ev.bankUp = 0 := by
      rw [hcount.2, hpost56]
      simp
    rw [List.count_eq_zero] at h0
    exact h0

theorem loopStep_pending_src (now : Nat) (raw : Fin 6 → Bool) (st : LoopState)
    (i : Fin 6) (hi : 3 ≤ i.val) (h : (loopStep now raw st).1.pending i = true) :
    (swStep now i (raw i) st).pending = true := by
  rw [loopStep_state] at h
  split_ifs at h
  · rw [(chordPhase_flags _ i hi).1] at h
    split_ifs at h
    exact h
  · rw [(timeoutPhase_flags now _ i hi).1] at h
    split_ifs at h
    rw [(chordPhase_flags _ i hi).1] at h
    split_ifs at h
    exact h

theorem loopStep_sent_cases (now : Nat) (raw : Fin 6 → Bool) (st : LoopState)
    (i : Fin 6) (hi : 3 ≤ i.val) (h : (loopStep now raw st).1.sent i = true) :
    (swStep now i (raw i) st).sent = true
      ∨ fired now (chordPhase (debouncePhase now raw st).1).1 i := by
  rw [loopStep_state] at h
  split_ifs at h
  · rw [(chordPhase_flags _ i hi).2] at h
    split_ifs at h
    exact Or.inl h
  · rw [(timeoutPhase_flags now _ i hi).2] at h
    split_ifs at h with hf
    · exact Or.inr hf
    · rw [(chordPhase_flags _ i hi).2] at h
      split_ifs at h
      exact Or.inl h

/-- Every `loop()` iteration re-establishes the full chord invariant from
its boot-time part (and hence from the invariant itself). -/
theorem inv_step (now : Nat) (raw : Fin 6 → Bool) (st : LoopState) (h : PreInv st) :
    Inv (loopStep now raw st).1 := by
  obtain ⟨hl45, hl56, hact, hflag⟩ := h
  refine ⟨loopStep_c45_eq now raw st, loopStep_c56_eq now raw st,
    fun hh => ((loopStep_c45_eq now raw st).symm.trans hh),
    fun hh => ((loopStep_c56_eq now raw st).symm.trans hh), ?_, ?_⟩
  · -- an active chord pair after the step implies clear bookkeeping on 3..5
    intro hch i hi
    have hch' : chordCond45 (debouncePhase now raw st).1 = true
        ∨ chordCond56 (debouncePhase now raw st).1 = true := by
      rcases hch with hh | hh
      · exact Or.inl (by rw [← loopStep_cond45]; exact hh)
      · exact Or.inr (by rw [← loopStep_cond56]; exact hh)
    have hany : (chordCond45 (debouncePhase now raw st).1
        || chordCond56 (debouncePhase now raw st).1) = true := by
      rcases hch' with hh | hh <;> simp [hh]
    rw [loopStep_state, if_pos hany]
    rw [(chordPhase_flags _ i hi).1, (chordPhase_flags _ i hi).2]
    by_cases hcl : (chordCond45 (debouncePhase now raw st).1
          && !(debouncePhase now raw st).1.c45
        || chordCond56 (debouncePhase now raw st).1
          && !(debouncePhase now raw st).1.c56) = true
    · rw [if_pos hcl, if_pos hcl]
      exact ⟨rfl, rfl⟩
    · rw [if_neg hcl, if_neg hcl]
      have hc45d : (debouncePhase now raw st).1.c45 = st.c45 := rfl
      have hc56d : (debouncePhase now raw st).1.c56 = st.c56 := rfl
      rw [hc45d, hc56d] at hcl
      simp only [Bool.or_eq_true, not_or, Bool.and_eq_true, Bool.not_eq_true',
        not_and] at hcl
      have hlatch45 : chordCond45 (debouncePhase now raw st).1 = true → st.c45 = true := by
        intro hh
        rcases hb : st.c45 with _ | _
        · exact absurd hb (hcl.1 hh)
        · rfl
      have hlatch56 : chordCond56 (debouncePhase now raw st).1 = true → st.c56 = true := by
        intro hh
        rcases hb : st.c56 with _ | _
        · exact absurd hb (hcl.2 hh)
        · rfl
      have hflags0 : ∀ j : Fin 6, 3 ≤ j.val → st.pending j = false ∧ st.sent j = false := by
        apply hact
        rcases hch' with hh | hh
        · exact Or.inl (hl45 (hlatch45 hh))
        · exact Or.inr (hl56 (hlatch56 hh))
      constructor
      · rcases hdp : (swStep now i (raw i) st).pending with _ | _
        · exact hdp
        · exfalso
          rcases swStep_pending_src now i (raw i) st hdp with hsrc | hsrc
          · rw [(hflags0 i hi).1] at hsrc
            cases hsrc
          · have hd3 : (debouncePhase now raw st).1.stable 3
                = (swStep now 3 (raw 3) st).stable := rfl
            have hd4 : (debouncePhase now raw st).1.stable 4
                = (swStep now 4 (raw 4) st).stable := rfl
            have hd5 : (debouncePhase now raw st).1.stable 5
                = (swStep now 5 (raw 5) st).stable := rfl
            rcases hch' with hh | hh
            · have h34 : (swStep now 3 (raw 3) st).stable = true
                  ∧ (swStep now 4 (raw 4) st).stable = true := by
                have := hh
                unfold chordCond45 at this
                rw [hd3, hd4] at this
                simpa [Bool.and_eq_true] using this
              have hst34 : st.stable 3 = true ∧ st.stable 4 = true := by
                have := hl45 (hlatch45 hh)
                unfold chordCond45 at this
                simpa [Bool.and_eq_true] using this
              rcases (by omega : i = 3 ∨ i = 4 ∨ i = 5) with rfl | rfl | rfl
              · rw [hst34.1] at hsrc
                cases hsrc.1
              · rw [hst34.2] at hsrc
                cases hsrc.1
              · have hcond56d : chordCond56 (debouncePhase now raw st).1 = true := by
                  unfold chordCond56
                  rw [hd4, hd5, h34.2, hsrc.2]
                  rfl
                have := hl56 (hlatch56 hcond56d)
                unfold chordCond56 at this
                simp [Bool.and_eq_true] at this
                rw [this.2] at hsrc
                cases hsrc.1
            · have h45 : (swStep now 4 (raw 4) st).stable = true
                  ∧ (swStep now 5 (raw 5) st).stable = true := by
                have := hh
                unfold chordCond56 at this
                rw [hd4, hd5] at this
                simpa [Bool.and_eq_true] using this
              have hst45 : st.stable 4 = true ∧ st.stable 5 = true := by
                have := hl56 (hlatch56 hh)
                unfold chordCond56 at this
                simpa [Bool.and_eq_true] using this
              rcases (by omega : i = 3 ∨ i = 4 ∨ i = 5) with rfl | rfl | rfl
              · have hcond45d : chordCond45 (debouncePhase now raw st).1 = true := by
                  unfold chordCond45
                  rw [hd3, hd4, h45.1, hsrc.2]
                  rfl
                have := hl45 (hlatch45 hcond45d)
                unfold chordCond45 at this
                simp [Bool.and_eq_true] at this
                rw [this.1] at hsrc
                cases hsrc.1
              · rw [hst45.1] at hsrc
                cases hsrc.1
              · rw [hst45.2] at hsrc
                cases hsrc.1
      · rcases hds : (swStep now i (raw i) st).sent with _ | _
        · exact hds
        · exfalso
          have := swStep_sent_src now i (raw i) st hds
          rw [(hflags0 i hi).2] at this
          cases this
  · -- pending/sent imply stable-pressed, never both
    intro i hi
    have hfi := swStep_flag_inv now i (raw i) st hi (hflag i hi).1 (hflag i hi).2.1
      (hflag i hi).2.2
    have hps : (loopStep now raw st).1.stable i = (swStep now i (raw i) st).stable :=
      loopStep_stable now raw st i
    refine ⟨?_, ?_, ?_⟩
    · intro hp
      rw [hps]
      exact hfi.1 (loopStep_pending_src now raw st i hi hp)
    · intro hsn
      rw [hps]
      rcases loopStep_sent_cases now raw st i hi hsn with hc | hc
      · exact hfi.2.1 hc
      · obtain ⟨hcp, _⟩ := hc
        rw [(chordPhase_flags _ i hi).1] at hcp
        split_ifs at hcp
        exact hfi.1 hcp
    · intro hboth
      obtain ⟨hp, hsn⟩ := hboth
      have hdp := loopStep_pending_src now raw st i hi hp
      rw [loopStep_state] at hp hsn
      split_ifs at hp hsn with hany
      · rw [(chordPhase_flags _ i hi).1] at hp
        rw [(chordPhase_flags _ i hi).2] at hsn
        split_ifs at hp hsn
        exact hfi.2.2 ⟨hp, hsn⟩
      · rw [(timeoutPhase_flags now _ i hi).1] at hp
        rw [(timeoutPhase_flags now _ i hi).2] at hsn
        split_ifs at hp hsn
        rw [(chordPhase_flags _ i hi).1] at hp
        rw [(chordPhase_flags _ i hi).2] at hsn
        split_ifs at hp hsn
        exact hfi.2.2 ⟨hp, hsn⟩

theorem preInv_boot (raw0 : Fin 6 → Bool) (t0 : Nat) : PreInv (bootLoopState raw0 t0) := by
  refine ⟨?_, ?_, ?_, ?_⟩ <;> simp [bootLoopState]

theorem inv_preInv (st : LoopState) (h : Inv st) : PreInv st := h.2.2

/-- `PreInv` (and from the second iteration on, the full invariant) holds
along every run. -/
theorem preInv_run (st : LoopState) (h : PreInv st)
    (us : List (Nat × (Fin 6 → Bool))) : PreInv (loopRun st us).1 := by
  induction us generalizing st with
  | nil => exact h
  | cons u rest ih =>
    exact ih _ (inv_preInv _ (inv_step u.1 u.2 st h))

/-- Switches 3 and 4 with settled (35+ units old) raw presses about to be
promoted to stable in the same iteration. -/
def stW : LoopState :=
  { stable := fun _ => false, lastRaw := fun i => decide (i.val = 3 ∨ i.val = 4),
    lastChange := fun _ => 0, pending := fun _ => false, pendingAt := fun _ => 0,
    sent := fun _ => false, c45 := false, c56 := false }

/-- Raw samples holding switches 3 and 4 closed. -/
def rawW : Fin 6 → Bool := fun i => decide (i.val = 3 ∨ i.val = 4)

theorem chord_latch_behavior_witness :
    ((loopStep 50 rawW stW).2).count Ev.bankDown = 1 ∧
    Ev.bankUp ∉ (loopStep 50 rawW stW).2 := by
  have h := chord_latch_behavior 50 rawW stW (by decide)
  exact ⟨h.2.1 (by decide) (by decide), h.2.2.2.2.2 (by decide)⟩

-- -------------------- Claim C10 --------------------

/-- A switch in 3..5 that was not pending before the iteration cannot have
its chord-window timeout fire in this iteration (a freshly armed pending
press has its timestamp set to the current time). -/
theorem not_fired_of_clear (now : Nat) (raw : Fin 6 → Bool) (st : LoopState)
    (i : Fin 6) (hi : 3 ≤ i.val) (hp : st.pending i = false) :
    ¬fired now (chordPhase (debouncePhase now raw st).1).1 i := by
  intro hf
  obtain ⟨hfp, hft⟩ := hf
  have hpa : (chordPhase (debouncePhase now raw st).1).1.pendingAt i
      = (swStep now i (raw i) st).pendingAt := by
    rw [(chordPhase_fixed _).2.2.2]
    rfl
  rw [(chordPhase_flags _ i hi).1] at hfp
  split_ifs at hfp
  rw [debouncePhase_pending] at hfp
  rcases swStep_pending_src now i (raw i) st hfp with hsrc | hsrc
  · rw [hp] at hsrc
    cases hsrc
  · have hpr := swStep_press now i (raw i) st hi hsrc.1 hsrc.2
    rw [hpa, hpr.2.1] at hft
    omega

/-- With clear pending/sent bookkeeping for one switch `i` in 3..5, no
individual action for `i` is dispatched in the iteration. -/
theorem loopStep_no_sw_i (now : Nat) (raw : Fin 6 → Bool) (st : LoopState)
    (i : Fin 6) (hi : 3 ≤ i.val) (hp : st.pending i = false) (hs : st.sent i = false)
    (b : Bool) : Ev.sw i b ∉ (loopStep now raw st).2 := by
  have hnotfired := not_fired_of_clear now raw st i hi hp
  rw [loopStep_evs]
  intro hmem
  rcases List.mem_append.mp hmem with hmem1 | hmem2
  · rcases List.mem_append.mp hmem1 with hdm | hcm
    · obtain ⟨j, hj⟩ := debouncePhase_mem now raw st _ hdm
      obtain ⟨b2, hb2⟩ := swStep_evs_shape now j (raw j) st _ hj
      have hij : i = j := by cases hb2; rfl
      subst hij
      rw [swStep_no_events_of_clear now i (raw i) st hi hp hs] at hj
      cases hj
    · rw [chordPhase_evs] at hcm
      rcases List.mem_append.mp hcm with h1 | h1 <;> (split_ifs at h1 <;> simp_all)
  · split_ifs at hmem2 with hcond
    · cases hmem2
    · rw [timeoutPhase_evs] at hmem2
      rcases List.mem_append.mp hmem2 with h1 | h1
      · rcases List.mem_append.mp h1 with h2 | h2
        · split_ifs at h2 with hf
          · have : i = 3 := by cases List.mem_singleton.mp h2; rfl
            subst this
            exact hnotfired hf
          · cases h2
        · split_ifs at h2 with hf
          · have : i = 4 := by cases List.mem_singleton.mp h2; rfl
            subst this
            exact hnotfired hf
          · cases h2
      · split_ifs at h1 with hf
        · have : i = 5 := by cases List.mem_singleton.mp h1; rfl
          subst this
          exact hnotfired hf
        · cases h1

/-- C10: when a chord fires, the pending/sent bookkeeping of switches 3..5
is cleared; with clear bookkeeping a switch in 3..5 dispatches no
individual action at all (in particular, a release of a formerly committed
press emits nothing), its sent flag stays clear, and its pending flag can
become set only by a fresh debounced press (stable going false to true). -/
theorem chord_fire_clears_and_rearms (now : Nat) (raw : Fin 6 → Bool) (st : LoopState) :
    ((Ev.bankDown ∈ (loopStep now raw st).2 ∨ Ev.bankUp ∈ (loopStep now raw st).2) →
      ∀ i : Fin 6, 3 ≤ i.val →
        (loopStep now raw st).1.pending i = false ∧ (loopStep now raw st).1.sent i = false) ∧
    (∀ (i : Fin 6), 3 ≤ i.val → st.pending i = false → st.sent i = false →
      (∀ b, Ev.sw i b ∉ (loopStep now raw st).2) ∧
      (loopStep now raw st).1.sent i = false ∧
      ((loopStep now raw st).1.pending i = true →
        st.stable i = false ∧ (loopStep now raw st).1.stable i = true)) := by
  constructor
  · intro hbank i hi
    have hcnt := loopStep_count_bank now raw st
    have hcond : (chordCond45 (debouncePhase now raw st).1 && !st.c45) = true
        ∨ (chordCond56 (debouncePhase now raw st).1 && !st.c56) = true := by
      rcases hbank with hb | hb
      · left
        by_cases hcc : (chordCond45 (debouncePhase now raw st).1 && !st.c45) = true
        · exact hcc
        · exfalso
          have h0 : ((loopStep now raw st).2).count Ev.bankDown = 0 := by
            rw [hcnt.1, if_neg hcc]
          rw [List.count_eq_zero] at h0
          exact h0 hb
      · right
        by_cases hcc : (chordCond56 (debouncePhase now raw st).1 && !st.c56) = true
        · exact hcc
        · exfalso
          have h0 : ((loopStep now raw st).2).count Ev.bankUp = 0 := by
            rw [hcnt.2, if_neg hcc]
          rw [List.count_eq_zero] at h0
          exact h0 hb
    have hany : (chordCond45 (debouncePhase now raw st).1
        || chordCond56 (debouncePhase now raw st).1) = true := by
      rcases hcond with hh | hh <;>
        · simp only [Bool.and_eq_true] at hh
          simp [hh.1]
    rw [loopStep_state, if_pos hany, (chordPhase_flags _ i hi).1,
      (chordPhase_flags _ i hi).2]
    have hcl : (chordCond45 (debouncePhase now raw st).1
          && !(debouncePhase now raw st).1.c45
        || chordCond56 (debouncePhase now raw st).1
          && !(debouncePhase now raw st).1.c56) = true := by
      have hc45d : (debouncePhase now raw st).1.c45 = st.c45 := rfl
      have hc56d : (debouncePhase now raw st).1.c56 = st.c56 := rfl
      rw [hc45d, hc56d]
      rcases hcond with hh | hh <;> simp [hh]
    rw [if_pos hcl, if_pos hcl]
    exact ⟨rfl, rfl⟩
  · intro i hi hp hs
    refine ⟨fun b => loopStep_no_sw_i now raw st i hi hp hs b, ?_, ?_⟩
    · rcases hsn : (loopStep now raw st).1.sent i with _ | _
      · rfl
      · exfalso
        rcases loopStep_sent_cases now raw st i hi hsn with hc | hc
        · have := swStep_sent_src now i (raw i) st hc
          rw [hs] at this
          cases this
        · exact not_fired_of_clear now raw st i hi hp hc
    · intro hpp
      have hsw := loopStep_pending_src now raw st i hi hpp
      rcases swStep_pending_src now i (raw i) st hsw with hsrc | hsrc
      · rw [hp] at hsrc
        cases hsrc
      · refine ⟨hsrc.1, ?_⟩
        rw [loopStep_stable]
        exact hsrc.2

/-- A settled committed-style press on switch 3 about to see a debounced
release (all bookkeeping already clear). -/
def stR : LoopState :=
  { stable := fun i => decide (i.val = 3), lastRaw := fun _ => false,
    lastChange := fun _ => 100, pending := fun _ => false, pendingAt := fun _ => 0,
    sent := fun _ => false, c45 := false, c56 := false }

/-- Raw samples with every switch open. -/
def rawR : Fin 6 → Bool := fun _ => false

theorem chord_fire_clears_and_rearms_witness :
    ((loopStep 50 rawW stW).1.pending 3 = false ∧ (loopStep 50 rawW stW).1.sent 3 = false) ∧
    Ev.sw 3 false ∉ (loopStep 200 rawR stR).2 := by
  refine ⟨(chord_fire_clears_and_rearms 50 rawW stW).1 (Or.inl (by decide)) 3 (by decide), ?_⟩
  exact ((chord_fire_clears_and_rearms 200 rawR stR).2 3 (by decide) (by decide)
    (by decide)).1 false

-- -------------------- Claim C7 --------------------

theorem count_sw_zero_of_shape {l : List Ev} {j i : Fin 6}
    (hshape : ∀ e ∈ l, ∃ b, e = Ev.sw j b) (hne : j ≠ i) (b : Bool) :
    l.count (Ev.sw i b) = 0 := by
  rw [List.count_eq_zero]
  intro hm
  obtain ⟨b2, hb2⟩ := hshape _ hm
  have : i = j := by cases hb2; rfl
  exact hne this.symm

/-- The timeout phase only ever dispatches presses of switches 3..5. -/
theorem timeout_evs_shape345 (now : Nat) (st : LoopState) (e : Ev)
    (he : e ∈ (timeoutPhase now st).2) : ∃ j b, e = Ev.sw j b ∧ 3 ≤ j.val := by
  rw [timeoutPhase_evs] at he
  rcases List.mem_append.mp he with h1 | h1
  · rcases List.mem_append.mp h1 with h2 | h2 <;> (split_ifs at h2 <;> simp_all) <;> decide
  · split_ifs at h1 <;> simp_all
    decide

theorem debounce_count_sw (now : Nat) (raw : Fin 6 → Bool) (st : LoopState)
    (i : Fin 6) (b : Bool) :
    ((debouncePhase now raw st).2).count (Ev.sw i b)
      = ((swStep now i (raw i) st).evs).count (Ev.sw i b) := by
  have hz : ∀ j : Fin 6, j ≠ i → ((swStep now j (raw j) st).evs).count (Ev.sw i b) = 0 :=
    fun j hj => count_sw_zero_of_shape (swStep_evs_shape now j (raw j) st) hj b
  have hfr : List.finRange 6 = ([0, 1, 2, 3, 4, 5] : List (Fin 6)) := by decide
  have hd : (debouncePhase now raw st).2
      = (List.finRange 6).flatMap fun j => (swStep now j (raw j) st).evs := rfl
  rw [hd, hfr]
  simp only [List.flatMap_cons, List.flatMap_nil, List.append_nil, List.count_append]
  rcases (by omega : i = 0 ∨ i = 1 ∨ i = 2 ∨ i = 3 ∨ i = 4 ∨ i = 5) with
    rfl | rfl | rfl | rfl | rfl | rfl
  · have h1 := hz 1 (by decide)
    have h2 := hz 2 (by decide)
    have h3 := hz 3 (by decide)
    have h4 := hz 4 (by decide)
    have h5 := hz 5 (by decide)
    omega
  · have h0 := hz 0 (by decide)
    have h2 := hz 2 (by decide)
    have h3 := hz 3 (by decide)
    have h4 := hz 4 (by decide)
    have h5 := hz 5 (by decide)
    omega
  · have h0 := hz 0 (by decide)
    have h1 := hz 1 (by decide)
    have h3 := hz 3 (by decide)
    have h4 := hz 4 (by decide)
    have h5 := hz 5 (by decide)
    omega
  · have h0 := hz 0 (by decide)
    have h1 := hz 1 (by decide)
    have h2 := hz 2 (by decide)
    have h4 := hz 4 (by decide)
    have h5 := hz 5 (by decide)
    omega
  · have h0 := hz 0 (by decide)
    have h1 := hz 1 (by decide)
    have h2 := hz 2 (by decide)
    have h3 := hz 3 (by decide)
    have h5 := hz 5 (by decide)
    omega
  · have h0 := hz 0 (by decide)
    have h1 := hz 1 (by decide)
    have h2 := hz 2 (by decide)
    have h3 := hz 3 (by decide)
    have h4 := hz 4 (by decide)
    omega

theorem loopStep_count_sw_low (now : Nat) (raw : Fin 6 → Bool) (st : LoopState)
    (i : Fin 6) (hi : i.val < 3) (b : Bool) :
    ((loopStep now raw st).2).count (Ev.sw i b)
      = ((swStep now i (raw i) st).evs).count (Ev.sw i b) := by
  rw [loopStep_evs]
  simp only [List.count_append]
  have hc : ((chordPhase (debouncePhase now raw st).1).2).count (Ev.sw i b) = 0 := by
    rw [List.count_eq_zero]
    intro hm
    rw [chordPhase_evs] at hm
    rcases List.mem_append.mp hm with h1 | h1 <;> (split_ifs at h1 <;> simp_all)
  have ht : (if chordCond45 (debouncePhase now raw st).1
        || chordCond56 (debouncePhase now raw st).1
      then ([] : List Ev)
      else (timeoutPhase now (chordPhase (debouncePhase now raw st).1).1).2).count
        (Ev.sw i b) = 0 := by
    split_ifs
    · rfl
    · rw [List.count_eq_zero]
      intro hm
      obtain ⟨j, b2, hb2, hj3⟩ := timeout_evs_shape345 now _ _ hm
      have : i = j := by cases hb2; rfl
      omega
  rw [hc, ht, debounce_count_sw]
  omega

/-- C7: for every switch, the stable state changes only when the raw
sample differs from the stable value and at least 35 time units have
elapsed since the last raw change; whenever those conditions hold the raw
value is promoted (exactly one stable transition per qualifying edge); a
raw flicker — a sample differing from the last raw value — never changes
the stable state in its iteration; and for the direct switches 0..2,
exactly one action (carrying the new stable value) is dispatched per
stable edge and none without an edge. -/
theorem debounce_settle_behavior (now : Nat) (raw : Fin 6 → Bool) (st : LoopState)
    (i : Fin 6) :
    ((loopStep now raw st).1.stable i ≠ st.stable i →
      st.stable i ≠ raw i ∧
      35 ≤ now - (if raw i ≠ st.lastRaw i then now else st.lastChange i) ∧
      (loopStep now raw st).1.stable i = raw i) ∧
    (st.stable i ≠ raw i →
      35 ≤ now - (if raw i ≠ st.lastRaw i then now else st.lastChange i) →
      (loopStep now raw st).1.stable i = raw i) ∧
    (raw i ≠ st.lastRaw i → (loopStep now raw st).1.stable i = st.stable i) ∧
    (i.val < 3 → ∀ b : Bool,
      ((loopStep now raw st).2).count (Ev.sw i b)
        = if (loopStep now raw st).1.stable i ≠ st.stable i ∧
              b = (loopStep now raw st).1.stable i
          then 1 else 0) := by
  have hls := loopStep_stable now raw st i
  refine ⟨?_, ?_, ?_, ?_⟩
  · intro hch
    rw [hls] at hch ⊢
    exact swStep_stable_change now i (raw i) st hch
  · intro h1 h2
    rw [hls]
    exact swStep_stable_of_cond now i (raw i) st ⟨h2, h1⟩
  · intro hflick
    rw [hls]
    apply swStep_stable_stays
    rw [if_pos hflick]
    intro hcon
    omega
  · intro hlow b
    rw [loopStep_count_sw_low now raw st i hlow b,
      (swStep_low now i (raw i) st hlow).2.2]
    rw [hls]
    by_cases hch : (swStep now i (raw i) st).stable = st.stable i
    · rw [if_pos hch]
      simp [hch]
    · rw [if_neg hch]
      by_cases hb : b = (swStep now i (raw i) st).stable
      · subst hb
        simp [hch]
      · simp [hch, hb]

-- -------------------- Claim C6 --------------------

/-- Neither chord condition holds (on the post-debounce stable states). -/
def noChord (st : LoopState) : Prop :=
  chordCond45 st = false ∧ chordCond56 st = false

/-- Along these inputs the switch `i` stays stable-pressed, no chord
condition ever becomes active, and time stays monotone within the chord
window that opened at `t0`. -/
def heldNoChord (i : Fin 6) (t0 : Nat) : LoopState → List (Nat × (Fin 6 → Bool)) → Prop
  | _, [] => True
  | st, u :: us =>
    t0 ≤ u.1 ∧ u.1 - t0 < 120 ∧
    (loopStep u.1 u.2 st).1.stable i = true ∧
    noChord (loopStep u.1 u.2 st).1 ∧
    heldNoChord i t0 (loopStep u.1 u.2 st).1 us

theorem loopStep_pendingAt (now : Nat) (raw : Fin 6 → Bool) (st : LoopState) (i : Fin 6) :
    (loopStep now raw st).1.pendingAt i = (swStep now i (raw i) st).pendingAt := by
  rw [loopStep_state]
  split_ifs
  · rw [(chordPhase_fixed _).2.2.2]
    rfl
  · rw [(timeoutPhase_fixed _ _).2.2.2.1, (chordPhase_fixed _).2.2.2]
    rfl

/-- When no chord condition holds after debounce and switch `i`'s timeout
does not fire, the post-iteration bookkeeping of `i` is the post-debounce
bookkeeping. -/
theorem loopStep_flags_noChord (now : Nat) (raw : Fin 6 → Bool) (st : LoopState)
    (i : Fin 6) (hi : 3 ≤ i.val)
    (hnc45 : chordCond45 (debouncePhase now raw st).1 = false)
    (hnc56 : chordCond56 (debouncePhase now raw st).1 = false)
    (hnf : ¬fired now (chordPhase (debouncePhase now raw st).1).1 i) :
    (loopStep now raw st).1.pending i = (swStep now i (raw i) st).pending ∧
    (loopStep now raw st).1.sent i = (swStep now i (raw i) st).sent := by
  rw [loopStep_state, if_neg (by simp [hnc45, hnc56])]
  rw [(timeoutPhase_flags now _ i hi).1, (timeoutPhase_flags now _ i hi).2,
    if_neg hnf, if_neg hnf,
    (chordPhase_flags _ i hi).1, (chordPhase_flags _ i hi).2,
    if_neg (by simp [hnc45, hnc56]), if_neg (by simp [hnc45, hnc56])]
  exact ⟨rfl, rfl⟩

/-- If switch `i`'s debounce body emitted nothing and its timeout did not
fire, no individual action for `i` is dispatched in the iteration. -/
theorem loopStep_no_sw_i_of_keep (now : Nat) (raw : Fin 6 → Bool) (st : LoopState)
    (i : Fin 6) (hkeep : (swStep now i (raw i) st).evs = [])
    (hnf : ¬fired now (chordPhase (debouncePhase now raw st).1).1 i) (b : Bool) :
    Ev.sw i b ∉ (loopStep now raw st).2 := by
  rw [loopStep_evs]
  intro hmem
  rcases List.mem_append.mp hmem with hmem1 | hmem2
  · rcases List.mem_append.mp hmem1 with hdm | hcm
    · obtain ⟨j, hj⟩ := debouncePhase_mem now raw st _ hdm
      obtain ⟨b2, hb2⟩ := swStep_evs_shape now j (raw j) st _ hj
      have hij : i = j := by cases hb2; rfl
      subst hij
      rw [hkeep] at hj
      cases hj
    · rw [chordPhase_evs] at hcm
      rcases List.mem_append.mp hcm with h1 | h1 <;> (split_ifs at h1 <;> simp_all)
  · split_ifs at hmem2 with hcond
    · cases hmem2
    · rw [timeoutPhase_evs] at hmem2
      rcases List.mem_append.mp hmem2 with h1 | h1
      · rcases List.mem_append.mp h1 with h2 | h2
        · split_ifs at h2 with hf
          · have : i = 3 := by cases List.mem_singleton.mp h2; rfl
            subst this
            exact hnf hf
          · cases h2
        · split_ifs at h2 with hf
          · have : i = 4 := by cases List.mem_singleton.mp h2; rfl
            subst this
            exact hnf hf
          · cases h2
      · split_ifs at h1 with hf
        · have : i = 5 := by cases List.mem_singleton.mp h1; rfl
          subst this
          exact hnf hf
        · cases h1

/-- A quiet iteration for a pending switch `i`: it stays stable-pressed,
no chord condition arises, and the window has not elapsed — then the
pending bookkeeping survives untouched and no action for `i` fires. -/
theorem quiet_step (now : Nat) (raw : Fin 6 → Bool) (st : LoopState) (i : Fin 6)
    (t0 : Nat) (hi : 3 ≤ i.val) (hp : st.pending i = true) (hs : st.sent i = false)
    (hst : st.stable i = true) (hpa : st.pendingAt i = t0)
    (hpost : (loopStep now raw st).1.stable i = true)
    (hnc : noChord (loopStep now raw st).1)
    (hwin : now - t0 < 120) :
    (loopStep now raw st).1.pending i = true ∧
    (loopStep now raw st).1.sent i = false ∧
    (loopStep now raw st).1.pendingAt i = t0 ∧
    (∀ b, Ev.sw i b ∉ (loopStep now raw st).2) := by
  have hls := loopStep_stable now raw st i
  have hkeepc : (swStep now i (raw i) st).stable = st.stable i := by
    rw [← hls, hpost, hst]
  have hkeep := swStep_keep now i (raw i) st hkeepc
  have hnc45 : chordCond45 (debouncePhase now raw st).1 = false := by
    rw [← loopStep_cond45]
    exact hnc.1
  have hnc56 : chordCond56 (debouncePhase now raw st).1 = false := by
    rw [← loopStep_cond56]
    exact hnc.2
  have hcpa : (chordPhase (debouncePhase now raw st).1).1.pendingAt i
      = (swStep now i (raw i) st).pendingAt := by
    rw [(chordPhase_fixed _).2.2.2]
    rfl
  have hnf : ¬fired now (chordPhase (debouncePhase now raw st).1).1 i := by
    intro hf
    have := hf.2
    rw [hcpa, hkeep.2.2.1, hpa] at this
    omega
  have hfl := loopStep_flags_noChord now raw st i hi hnc45 hnc56 hnf
  refine ⟨?_, ?_, ?_, ?_⟩
  · rw [hfl.1, hkeep.1, hp]
  · rw [hfl.2, hkeep.2.1, hs]
  · rw [loopStep_pendingAt, hkeep.2.2.1, hpa]
  · exact fun b => loopStep_no_sw_i_of_keep now raw st i hkeep.2.2.2 hnf b

/-- Over a quiet stretch the pending bookkeeping of `i` persists and no
action for `i` is dispatched. -/
theorem pending_persists (i : Fin 6) (hi : 3 ≤ i.val) (t0 : Nat) :
    ∀ (us : List (Nat × (Fin 6 → Bool))) (st : LoopState),
    st.pending i = true → st.sent i = false → st.pendingAt i = t0 →
    st.stable i = true → heldNoChord i t0 st us →
    (loopRun st us).1.pending i = true ∧
    (loopRun st us).1.sent i = false ∧
    (loopRun st us).1.pendingAt i = t0 ∧
    (loopRun st us).1.stable i = true ∧
    (∀ b, Ev.sw i b ∉ (loopRun st us).2) := by
  intro us
  induction us with
  | nil =>
    intro st hp hs hpa hst _
    exact ⟨hp, hs, hpa, hst, fun b h => by cases h⟩
  | cons u rest ih =>
    intro st hp hs hpa hst hheld
    obtain ⟨ht0, hwin, hpost, hnc, hheld2⟩ := hheld
    have hq := quiet_step u.1 u.2 st i t0 hi hp hs hst hpa hpost hnc hwin
    have hrest := ih (loopStep u.1 u.2 st).1 hq.1 hq.2.1 hq.2.2.1 hpost hheld2
    have hrun : loopRun st (u :: rest)
        = ((loopRun (loopStep u.1 u.2 st).1 rest).1,
           (loopStep u.1 u.2 st).2 ++ (loopRun (loopStep u.1 u.2 st).1 rest).2) := rfl
    rw [hrun]
    refine ⟨hrest.1, hrest.2.1, hrest.2.2.1, hrest.2.2.2.1, ?_⟩
    intro b hmem
    rcases List.mem_append.mp hmem with h1 | h1
    · exact hq.2.2.2 b h1
    · exact hrest.2.2.2.2 b h1

/-- A debounced press of `i` in 3..5 (with clear bookkeeping and no chord
arising) only arms the pending state: nothing is dispatched for `i`, and
the pending timestamp is the current time. -/
theorem press_step (now : Nat) (raw : Fin 6 → Bool) (st : LoopState) (i : Fin 6)
    (hi : 3 ≤ i.val) (hp : st.pending i = false) (hs : st.sent i = false)
    (hst : st.stable i = false)
    (hpost : (loopStep now raw st).1.stable i = true)
    (hnc : noChord (loopStep now raw st).1) :
    (loopStep now raw st).1.pending i = true ∧
    (loopStep now raw st).1.sent i = false ∧
    (loopStep now raw st).1.pendingAt i = now ∧
    (∀ b, Ev.sw i b ∉ (loopStep now raw st).2) := by
  have hls := loopStep_stable now raw st i
  have hsw : (swStep now i (raw i) st).stable = true := by
    rw [← hls]
    exact hpost
  have hpr := swStep_press now i (raw i) st hi hst hsw
  have hnc45 : chordCond45 (debouncePhase now raw st).1 = false := by
    rw [← loopStep_cond45]
    exact hnc.1
  have hnc56 : chordCond56 (debouncePhase now raw st).1 = false := by
    rw [← loopStep_cond56]
    exact hnc.2
  have hnf := not_fired_of_clear now raw st i hi hp
  have hfl := loopStep_flags_noChord now raw st i hi hnc45 hnc56 hnf
  refine ⟨?_, ?_, ?_, fun b => loopStep_no_sw_i now raw st i hi hp hs b⟩
  · rw [hfl.1, hpr.1]
  · rw [hfl.2, hpr.2.2.1, hs]
  · rw [loopStep_pendingAt, hpr.2.1]

/-- The debounce-phase event stream splits around switch `i`'s own events,
with no `i` events on either side. -/
theorem debounce_decomp (now : Nat) (raw : Fin 6 → Bool) (st : LoopState) (i : Fin 6) :
    ∃ A B, (debouncePhase now raw st).2 = A ++ (swStep now i (raw i) st).evs ++ B ∧
      (∀ b, Ev.sw i b ∉ A) ∧ (∀ b, Ev.sw i b ∉ B) := by
  obtain ⟨s, t, hsplit⟩ := List.append_of_mem (List.mem_finRange i)
  have hnd : (s ++ i :: t).Nodup := by
    rw [← hsplit]
    exact List.nodup_finRange 6
  rw [List.nodup_append] at hnd
  have his : i ∉ s := fun hmem => hnd.2.2 hmem (List.mem_cons_self i t)
  have hit : i ∉ t := (List.nodup_cons.mp hnd.2.1).1
  refine ⟨s.flatMap fun j => (swStep now j (raw j) st).evs,
    t.flatMap fun j => (swStep now j (raw j) st).evs, ?_, ?_, ?_⟩
  · have hd : (debouncePhase now raw st).2
        = (List.finRange 6).flatMap fun j => (swStep now j (raw j) st).evs := rfl
    rw [hd, hsplit, List.flatMap_append, List.flatMap_cons, List.append_assoc]
  · intro b hmem
    rw [List.mem_flatMap] at hmem
    obtain ⟨j, hjs, hj⟩ := hmem
    obtain ⟨b2, hb2⟩ := swStep_evs_shape now j (raw j) st _ hj
    have : i = j := by cases hb2; rfl
    subst this
    exact his hjs
  · intro b hmem
    rw [List.mem_flatMap] at hmem
    obtain ⟨j, hjs, hj⟩ := hmem
    obtain ⟨b2, hb2⟩ := swStep_evs_shape now j (raw j) st _ hj
    have : i = j := by cases hb2; rfl
    subst this
    exact hit hjs

theorem chord_evs_no_sw (st : LoopState) (i : Fin 6) (b : Bool) :
    Ev.sw i b ∉ (chordPhase st).2 := by
  intro hm
  rw [chordPhase_evs] at hm
  rcases List.mem_append.mp hm with h1 | h1 <;> (split_ifs at h1 <;> simp_all)

theorem timeout_evs_no_sw_i (now : Nat) (st : LoopState) (i : Fin 6)
    (hnf : ¬fired now st i) (b : Bool) :
    Ev.sw i b ∉ (timeoutPhase now st).2 := by
  intro hm
  rw [timeoutPhase_evs] at hm
  rcases List.mem_append.mp hm with h1 | h1
  · rcases List.mem_append.mp h1 with h2 | h2
    · split_ifs at h2 with hf
      · have : i = 3 := by cases List.mem_singleton.mp h2; rfl
        subst this
        exact hnf hf
      · cases h2
    · split_ifs at h2 with hf
      · have : i = 4 := by cases List.mem_singleton.mp h2; rfl
        subst this
        exact hnf hf
      · cases h2
  · split_ifs at h1 with hf
    · have : i = 5 := by cases List.mem_singleton.mp h1; rfl
      subst this
      exact hnf hf
    · cases h1

/-- A debounced release of a pending, not-yet-sent press resolves as an
immediate press+release pair, adjacent in the iteration's event stream,
with no other action for `i`; the bookkeeping ends clear. -/
theorem tap_step (now : Nat) (raw : Fin 6 → Bool) (st : LoopState) (i : Fin 6)
    (hi : 3 ≤ i.val) (hp : st.pending i = true) (hs : st.sent i = false)
    (hst : st.stable i = true)
    (hpost : (loopStep now raw st).1.stable i = false) :
    ∃ A B, (loopStep now raw st).2 = A ++ [Ev.sw i true, Ev.sw i false] ++ B ∧
      (∀ b, Ev.sw i b ∉ A) ∧ (∀ b, Ev.sw i b ∉ B) ∧
      (loopStep now raw st).1.pending i = false := by
  have hls := loopStep_stable now raw st i
  have hsw : (swStep now i (raw i) st).stable = false := by
    rw [← hls]
    exact hpost
  have htap := swStep_release_tap now i (raw i) st hi hst hsw hs hp
  obtain ⟨A, B0, hdec, hA, hB0⟩ := debounce_decomp now raw st i
  have hnf : ¬fired now (chordPhase (debouncePhase now raw st).1).1 i := by
    intro hf
    have hfp := hf.1
    rw [(chordPhase_flags _ i hi).1] at hfp
    split_ifs at hfp
    rw [debouncePhase_pending, htap.2.2.1] at hfp
    cases hfp
  refine ⟨A, B0 ++ ((chordPhase (debouncePhase now raw st).1).2
      ++ (if chordCond45 (debouncePhase now raw st).1
            || chordCond56 (debouncePhase now raw st).1
          then ([] : List Ev)
          else (timeoutPhase now (chordPhase (debouncePhase now raw st).1).1).2)),
    ?_, hA, ?_, ?_⟩
  · rw [loopStep_evs, hdec, htap.1]
    simp [List.append_assoc]
  · intro b hmem
    rcases List.mem_append.mp hmem with h1 | h1
    · exact hB0 b h1
    · rcases List.mem_append.mp h1 with h2 | h2
      · exact chord_evs_no_sw _ i b h2
      · split_ifs at h2
        · cases h2
        · exact timeout_evs_no_sw_i now _ i hnf b h2
  · rcases hpp : (loopStep now raw st).1.pending i with _ | _
    · rfl
    · exfalso
      have := loopStep_pending_src now raw st i hi hpp
      rw [htap.2.2.1] at this
      cases this

/-- When the chord window elapses with the press still held and no chord
condition active, exactly one committed press for `i` is dispatched and
the sent flag is set. -/
theorem commit_step (now : Nat) (raw : Fin 6 → Bool) (st : LoopState) (i : Fin 6)
    (t0 : Nat) (hi : 3 ≤ i.val) (hp : st.pending i = true) (hs : st.sent i = false)
    (hst : st.stable i = true) (hpa : st.pendingAt i = t0)
    (hpost : (loopStep now raw st).1.stable i = true)
    (hnc : noChord (loopStep now raw st).1)
    (hwin : 120 ≤ now - t0) :
    ∃ A B, (loopStep now raw st).2 = A ++ [Ev.sw i true] ++ B ∧
      (∀ b, Ev.sw i b ∉ A) ∧ (∀ b, Ev.sw i b ∉ B) ∧
      (loopStep now raw st).1.sent i = true ∧
      (loopStep now raw st).1.pending i = false := by
  have hls := loopStep_stable now raw st i
  have hkeepc : (swStep now i (raw i) st).stable = st.stable i := by
    rw [← hls, hpost, hst]
  have hkeep := swStep_keep now i (raw i) st hkeepc
  have hnc45 : chordCond45 (debouncePhase now raw st).1 = false := by
    rw [← loopStep_cond45]
    exact hnc.1
  have hnc56 : chordCond56 (debouncePhase now raw st).1 = false := by
    rw [← loopStep_cond56]
    exact hnc.2
  have hanyf : ¬(chordCond45 (debouncePhase now raw st).1
      || chordCond56 (debouncePhase now raw st).1) = true := by
    simp [hnc45, hnc56]
  have hcf := chordPhase_flags (debouncePhase now raw st).1 i hi
  have hclf : (chordCond45 (debouncePhase now raw st).1
        && !(debouncePhase now raw st).1.c45
      || chordCond56 (debouncePhase now raw st).1
        && !(debouncePhase now raw st).1.c56) = false := by
    simp [hnc45, hnc56]
  have hcp : (chordPhase (debouncePhase now raw st).1).1.pending i = true := by
    rw [hcf.1, hclf]
    simp only [Bool.false_eq_true, if_false]
    rw [debouncePhase_pending, hkeep.1]
    exact hp
  have hcpa : (chordPhase (debouncePhase now raw st).1).1.pendingAt i = t0 := by
    rw [(chordPhase_fixed _).2.2.2, debouncePhase_pendingAt, hkeep.2.2.1]
    exact hpa
  have hf : fired now (chordPhase (debouncePhase now raw st).1).1 i := by
    refine ⟨hcp, ?_⟩
    rw [hcpa]
    exact hwin
  have hcevs : (chordPhase (debouncePhase now raw st).1).2 = [] := by
    rw [chordPhase_evs, hnc45, hnc56]
    simp
  obtain ⟨A, B0, hdec, hA, hB0⟩ := debounce_decomp now raw st i
  -- the timeout stream splits around switch i
  have hto := timeoutPhase_evs now (chordPhase (debouncePhase now raw st).1).1
  have hflags := (timeoutPhase_flags now (chordPhase (debouncePhase now raw st).1).1 i hi)
  have hsent : (loopStep now raw st).1.sent i = true := by
    rw [loopStep_state, if_neg hanyf, hflags.2, if_pos hf]
  have hpend : (loopStep now raw st).1.pending i = false := by
    rw [loopStep_state, if_neg hanyf, hflags.1, if_pos hf]
  have hnf4 : ∀ j : Fin 6, j ≠ i → ∀ b,
      Ev.sw i b ∉ (if fired now (chordPhase (debouncePhase now raw st).1).1 j
        then [Ev.sw j true] else ([] : List Ev)) := by
    intro j hne b hm
    split_ifs at hm
    · have : i = j := by cases List.mem_singleton.mp hm; rfl
      exact hne this.symm
    · cases hm
  rcases (by omega : i = 3 ∨ i = 4 ∨ i = 5) with rfl | rfl | rfl
  · refine ⟨A ++ B0, (if fired now (chordPhase (debouncePhase now raw st).1).1 4
        then [Ev.sw 4 true] else [])
      ++ (if fired now (chordPhase (debouncePhase now raw st).1).1 5
        then [Ev.sw 5 true] else []), ?_, ?_, ?_, hsent, hpend⟩
    · rw [loopStep_evs, hdec, hkeep.2.2.2, hcevs, if_neg hanyf, hto, if_pos hf]
      simp [List.append_assoc]
    · intro b hm
      rcases List.mem_append.mp hm with h1 | h1
      · exact hA b h1
      · exact hB0 b h1
    · intro b hm
      rcases List.mem_append.mp hm with h1 | h1
      · exact hnf4 4 (by decide) b h1
      · exact hnf4 5 (by decide) b h1
  · refine ⟨A ++ B0 ++ (if fired now (chordPhase (debouncePhase now raw st).1).1 3
        then [Ev.sw 3 true] else []),
      (if fired now (chordPhase (debouncePhase now raw st).1).1 5
        then [Ev.sw 5 true] else []), ?_, ?_, ?_, hsent, hpend⟩
    · rw [loopStep_evs, hdec, hkeep.2.2.2, hcevs, if_neg hanyf, hto, if_pos hf]
      simp [List.append_assoc]
    · intro b hm
      rcases List.mem_append.mp hm with h1 | h1
      · rcases List.mem_append.mp h1 with h2 | h2
        · exact hA b h2
        · exact hB0 b h2
      · exact hnf4 3 (by decide) b h1
    · intro b hm
      exact hnf4 5 (by decide) b hm
  · refine ⟨A ++ B0 ++ ((if fired now (chordPhase (debouncePhase now raw st).1).1 3
        then [Ev.sw 3 true] else [])
      ++ (if fired now (chordPhase (debouncePhase now raw st).1).1 4
        then [Ev.sw 4 true] else [])), ([] : List Ev), ?_, ?_, ?_, hsent, hpend⟩
    · rw [loopStep_evs, hdec, hkeep.2.2.2, hcevs, if_neg hanyf, hto, if_pos hf]
      simp [List.append_assoc]
    · intro b hm
      rcases List.mem_append.mp hm with h1 | h1
      · rcases List.mem_append.mp h1 with h2 | h2
        · exact hA b h2
        · exact hB0 b h2
      · rcases List.mem_append.mp h1 with h2 | h2
        · exact hnf4 3 (by decide) b h2
        · exact hnf4 4 (by decide) b h2
    · intro b hm
      cases hm

/-- The eventual release of a committed press is forwarded normally:
exactly one release action, and the sent flag clears. -/
theorem committed_release_step (now : Nat) (raw : Fin 6 → Bool) (st : LoopState)
    (i : Fin 6) (hi : 3 ≤ i.val) (hp : st.pending i = false) (hs : st.sent i = true)
    (hst : st.stable i = true)
    (hpost : (loopStep now raw st).1.stable i = false) :
    ∃ A B, (loopStep now raw st).2 = A ++ [Ev.sw i false] ++ B ∧
      (∀ b, Ev.sw i b ∉ A) ∧ (∀ b, Ev.sw i b ∉ B) ∧
      (loopStep now raw st).1.sent i = false := by
  have hls := loopStep_stable now raw st i
  have hsw : (swStep now i (raw i) st).stable = false := by
    rw [← hls]
    exact hpost
  have hrel := swStep_release_sent now i (raw i) st hi hst hsw hs
  obtain ⟨A, B0, hdec, hA, hB0⟩ := debounce_decomp now raw st i
  have hnf : ¬fired now (chordPhase (debouncePhase now raw st).1).1 i := by
    intro hf
    have hfp := hf.1
    rw [(chordPhase_flags _ i hi).1] at hfp
    split_ifs at hfp
    rw [debouncePhase_pending, hrel.2.2.1, hp] at hfp
    cases hfp
  refine ⟨A, B0 ++ ((chordPhase (debouncePhase now raw st).1).2
      ++ (if chordCond45 (debouncePhase now raw st).1
            || chordCond56 (debouncePhase now raw st).1
          then ([] : List Ev)
          else (timeoutPhase now (chordPhase (debouncePhase now raw st).1).1).2)),
    ?_, hA, ?_, ?_⟩
  · rw [loopStep_evs, hdec, hrel.1]
    simp [List.append_assoc]
  · intro b hmem
    rcases List.mem_append.mp hmem with h1 | h1
    · exact hB0 b h1
    · rcases List.mem_append.mp h1 with h2 | h2
      · exact chord_evs_no_sw _ i b h2
      · split_ifs at h2
        · cases h2
        · exact timeout_evs_no_sw_i now _ i hnf b h2
  · rcases hsn : (loopStep now raw st).1.sent i with _ | _
    · rfl
    · exfalso
      rcases loopStep_sent_cases now raw st i hi hsn with hc | hc
      · rw [hrel.2.1] at hc
        cases hc
      · exact hnf hc

instance (st : LoopState) : Decidable (noChord st) := by
  unfold noChord
  infer_instance

instance heldNoChordDec (i : Fin 6) (t0 : Nat) :
    ∀ (st : LoopState) (us : List (Nat × (Fin 6 → Bool))),
      Decidable (heldNoChord i t0 st us)
  | _, [] => isTrue trivial
  | st, u :: us => by
    unfold heldNoChord
    have := heldNoChordDec i t0 (loopStep u.1 u.2 st).1 us
    infer_instance

/-- C6: for a switch `i` in 3..5 starting from sound boot-time state: a
debounced press (arming the chord window at time `n0`), followed across a
quiet held stretch by a debounced release strictly before the 120-unit
window elapses with no chord becoming active, dispatches exactly one press
immediately followed by one release for `i` (a tap) and nothing else for
`i` — never a bare press; if instead the window elapses with the press
still held and no chord active, exactly one committed press is dispatched
(and nothing else for `i`), and a later debounced release of a committed
press is forwarded as exactly one release action. -/
theorem tap_and_commit_behavior (i : Fin 6) (hi : 3 ≤ i.val) (st0 : LoopState)
    (hpre : PreInv st0) (n0 : Nat) (r0 : Fin 6 → Bool)
    (mid : List (Nat × (Fin 6 → Bool))) (nm : Nat) (rm : Fin 6 → Bool)
    (hst0 : st0.stable i = false)
    (hpress : (loopStep n0 r0 st0).1.stable i = true)
    (hnc0 : noChord (loopStep n0 r0 st0).1)
    (hheld : heldNoChord i n0 (loopStep n0 r0 st0).1 mid) :
    (nm - n0 < 120 →
      (loopStep nm rm (loopRun (loopStep n0 r0 st0).1 mid).1).1.stable i = false →
      (∀ b, Ev.sw i b ∉ (loopStep n0 r0 st0).2) ∧
      (∀ b, Ev.sw i b ∉ (loopRun (loopStep n0 r0 st0).1 mid).2) ∧
      ∃ A B, (loopStep nm rm (loopRun (loopStep n0 r0 st0).1 mid).1).2
          = A ++ [Ev.sw i true, Ev.sw i false] ++ B ∧
        (∀ b, Ev.sw i b ∉ A) ∧ (∀ b, Ev.sw i b ∉ B)) ∧
    (120 ≤ nm - n0 →
      (loopStep nm rm (loopRun (loopStep n0 r0 st0).1 mid).1).1.stable i = true →
      noChord (loopStep nm rm (loopRun (loopStep n0 r0 st0).1 mid).1).1 →
      (∀ b, Ev.sw i b ∉ (loopStep n0 r0 st0).2) ∧
      (∀ b, Ev.sw i b ∉ (loopRun (loopStep n0 r0 st0).1 mid).2) ∧
      ∃ A B, (loopStep nm rm (loopRun (loopStep n0 r0 st0).1 mid).1).2
          = A ++ [Ev.sw i true] ++ B ∧
        (∀ b, Ev.sw i b ∉ A) ∧ (∀ b, Ev.sw i b ∉ B) ∧
        (loopStep nm rm (loopRun (loopStep n0 r0 st0).1 mid).1).1.sent i = true ∧
        (loopStep nm rm (loopRun (loopStep n0 r0 st0).1 mid).1).1.pending i = false) ∧
    (∀ (st : LoopState) (now : Nat) (raw : Fin 6 → Bool),
      st.pending i = false → st.sent i = true → st.stable i = true →
      (loopStep now raw st).1.stable i = false →
      ∃ A B, (loopStep now raw st).2 = A ++ [Ev.sw i false] ++ B ∧
        (∀ b, Ev.sw i b ∉ A) ∧ (∀ b, Ev.sw i b ∉ B) ∧
        (loopStep now raw st).1.sent i = false) := by
  have hp0 : st0.pending i = false := by
    rcases hh : st0.pending i with _ | _
    · rfl
    · have := (hpre.2.2.2 i hi).1 hh
      rw [hst0] at this
      cases this
  have hs0 : st0.sent i = false := by
    rcases hh : st0.sent i with _ | _
    · rfl
    · have := (hpre.2.2.2 i hi).2.1 hh
      rw [hst0] at this
      cases this
  have hps := press_step n0 r0 st0 i hi hp0 hs0 hst0 hpress hnc0
  have hpers := pending_persists i hi n0 mid (loopStep n0 r0 st0).1
    hps.1 hps.2.1 hps.2.2.1 hpress hheld
  refine ⟨?_, ?_, ?_⟩
  · intro _ hrel
    refine ⟨hps.2.2.2, hpers.2.2.2.2, ?_⟩
    obtain ⟨A, B, hdec, hA, hB, _⟩ := tap_step nm rm _ i hi hpers.1 hpers.2.1
      hpers.2.2.2.1 hrel
    exact ⟨A, B, hdec, hA, hB⟩
  · intro hwin hheld2 hnc2
    refine ⟨hps.2.2.2, hpers.2.2.2.2, ?_⟩
    exact commit_step nm rm _ i n0 hi hpers.1 hpers.2.1 hpers.2.2.2.1
      hpers.2.2.1 hheld2 hnc2 hwin
  · intro st now raw hp hs hst hpost
    exact committed_release_step now raw st i hi hp hs hst hpost

/-- Switch 3's raw press already settled, stable still released. -/
def stS : LoopState :=
  { stable := fun _ => false, lastRaw := fun i => decide (i.val = 3),
    lastChange := fun _ => 0, pending := fun _ => false, pendingAt := fun _ => 0,
    sent := fun _ => false, c45 := false, c56 := false }

/-- Raw samples with only switch 3 closed. -/
def raw3on : Fin 6 → Bool := fun i => decide (i.val = 3)

/-- Switch 3 stable-pressed with its press already committed (sent). -/
def stC : LoopState :=
  { stable := fun i => decide (i.val = 3), lastRaw := fun _ => false,
    lastChange := fun _ => 0, pending := fun _ => false, pendingAt := fun _ => 0,
    sent := fun i => decide (i.val = 3), c45 := false, c56 := false }

theorem tap_and_commit_behavior_witness :
    ((∀ b, Ev.sw 3 b ∉ (loopStep 50 raw3on stS).2) ∧
     (∀ b, Ev.sw 3 b ∉ (loopRun (loopStep 50 raw3on stS).1 [(60, rawR)]).2) ∧
     ∃ A B, (loopStep 96 rawR (loopRun (loopStep 50 raw3on stS).1 [(60, rawR)]).1).2
         = A ++ [Ev.sw 3 true, Ev.sw 3 false] ++ B ∧
       (∀ b, Ev.sw 3 b ∉ A) ∧ (∀ b, Ev.sw 3 b ∉ B)) ∧
    (∃ A B,
      (loopStep 170 raw3on (loopRun (loopStep 50 raw3on stS).1 [(60, raw3on)]).1).2
         = A ++ [Ev.sw 3 true] ++ B ∧
       (∀ b, Ev.sw 3 b ∉ A) ∧ (∀ b, Ev.sw 3 b ∉ B) ∧
       (loopStep 170 raw3on
         (loopRun (loopStep 50 raw3on stS).1 [(60, raw3on)]).1).1.sent 3 = true ∧
       (loopStep 170 raw3on
         (loopRun (loopStep 50 raw3on stS).1 [(60, raw3on)]).1).1.pending 3 = false) ∧
    (∃ A B, (loopStep 40 rawR stC).2 = A ++ [Ev.sw 3 false] ++ B ∧
       (∀ b, Ev.sw 3 b ∉ A) ∧ (∀ b, Ev.sw 3 b ∉ B) ∧
       (loopStep 40 rawR stC).1.sent 3 = false) := by
  have h1 := tap_and_commit_behavior 3 (by decide) stS (by decide) 50 raw3on
    [(60, rawR)] 96 rawR (by decide) (by decide) (by decide) (by decide)
  have h2 := tap_and_commit_behavior 3 (by decide) stS (by decide) 50 raw3on
    [(60, raw3on)] 170 raw3on (by decide) (by decide) (by decide) (by decide)
  refine ⟨h1.1 (by decide) (by decide), ?_, ?_⟩
  · exact (h2.2.1 (by decide) (by decide) (by decide)).2.2
  · exact h2.2.2 stC 40 rawR (by decide) (by decide) (by decide) (by decide)

/-- Switch 0's raw press already settled, stable still released. -/
def stD : LoopState :=
  { stable := fun _ => false, lastRaw := fun i => decide (i.val = 0),
    lastChange := fun _ => 0, pending := fun _ => false, pendingAt := fun _ => 0,
    sent := fun _ => false, c45 := false, c56 := false }

/-- Raw samples with only switch 0 closed. -/
def rawD : Fin 6 → Bool := fun i => decide (i.val = 0)

/-- As `stD`, but the closing of switch 0 is a fresh raw flicker. -/
def stD2 : LoopState :=
  { stD with lastRaw := fun _ => false }

theorem debounce_settle_behavior_witness :
    (loopStep 40 rawD stD).1.stable 0 = rawD 0 ∧
    (loopStep 40 rawD stD2).1.stable 0 = stD2.stable 0 ∧
    ((loopStep 40 rawD stD).2).count (Ev.sw 0 true)
      = (if (loopStep 40 rawD stD).1.stable 0 ≠ stD.stable 0 ∧
            true = (loopStep 40 rawD stD).1.stable 0
         then 1 else 0) := by
  refine ⟨(debounce_settle_behavior 40 rawD stD 0).2.1 (by decide) (by decide), ?_, ?_⟩
  · exact (debounce_settle_behavior 40 rawD stD2 0).2.2.1 (by decide)
  · exact (debounce_settle_behavior 40 rawD stD 0).2.2.2 (by decide) true

end Moriswitch
